import Mathlib

/-!
Verification of the WeaveAI multi-agent market-insight engine.

This file gives a shallow embedding, in Lean 4, of the parts of the
backend that the audited claims talk about:

* `backend/core/graph_engine.py` — backoff computation, connection-like
  error classification, the adaptive concurrency bookkeeping, initial
  state preparation, and the worker/debate/synthesize workflow shape;
* `backend/tools/guardrail.py` and `backend/tools/registry.py` — the
  per-session cost/error guardrail and the tool invocation lifecycle;
* `backend/core/ark_client.py` — source URL normalization;
* `backend/memory/session_snapshot.py` — markdown action/risk items;
* `backend/routers/v2/market_insight.py` — the stability score.

Python floats are modelled as rationals (ℚ) and Python ints as `Int`
(`Nat` where the source can only produce non-negative values).  Python
functions that can raise are modelled with `Option`/`Except`.
-/

namespace WeaveAI

/-! ## String primitives shared by several components -/

/-- Boolean prefix test on character lists (`needle` starts `hay`). -/
def leadsWith : List Char → List Char → Bool
  | [], _ => true
  | _ :: _, [] => false
  | a :: as, b :: bs => a == b && leadsWith as bs

/-- Boolean substring test on character lists: Python's `needle in hay`. -/
def containsSeg (needle : List Char) : List Char → Bool
  | [] => needle.isEmpty
  | c :: rest => leadsWith needle (c :: rest) || containsSeg needle rest

/-- Python `needle in hay` on strings. -/
def strContains (hay needle : String) : Bool :=
  containsSeg needle.data hay.data

/-- Python `s.lower()`; the keyword sets compared below are ASCII, for
which per-character ASCII lowercasing agrees with Python. -/
def pyLower (s : String) : String :=
  String.mk (s.data.map Char.toLower)

/-- Python `s.startswith(p)` on strings. -/
def strLeadsWith (s p : String) : Bool :=
  leadsWith p.data s.data

theorem leadsWith_iff (a b : List Char) : leadsWith a b = true ↔ a <+: b := by
  induction a generalizing b with
  | nil => simp [leadsWith, List.nil_prefix (l := b)]
  | cons x xs ih =>
    cases b with
    | nil => simp [leadsWith]
    | cons y ys =>
      simp [leadsWith, List.cons_prefix_cons, Bool.and_eq_true, beq_iff_eq, ih]

theorem containsSeg_iff (n h : List Char) :
    containsSeg n h = true ↔ n <:+: h := by
  induction h with
  | nil =>
    cases n <;> simp [containsSeg, List.isEmpty]
  | cons c rest ih =>
    simp only [containsSeg, Bool.or_eq_true, leadsWith_iff, ih,
      List.infix_cons_iff]

theorem strContains_iff (hay needle : String) :
    strContains hay needle = true ↔ needle.data <:+: hay.data :=
  containsSeg_iff _ _

/-! ## Connection-like error classification

Embedding of `MarketInsightGraphEngine._is_connection_like_error`
(`backend/core/graph_engine.py`).  The keyword tuple is copied verbatim
from the source. -/

/-- The keyword tuple from `_is_connection_like_error`. -/
def connectionKeywords : List String :=
  ["connection error", "request timed out", "timeout", "connect",
   "network", "ssl", "tls"]

/-- The keyword set as the specification states it (it lists the
substring "timed out" where the source has "request timed out"). -/
def claimedConnectionKeywords : List String :=
  ["connection error", "timed out", "timeout", "connect",
   "network", "ssl", "tls"]

/-- Embedding of `_is_connection_like_error`: `None` and the empty
string are falsy and classified `False`; otherwise the lowercased
message is searched for each keyword. -/
def isConnectionLikeError : Option String → Bool
  | none => false
  | some e =>
    if e = "" then false
    else connectionKeywords.any fun k => strContains (pyLower e) k

example : isConnectionLikeError (some "Connection ERROR while calling") = true := by decide

example : isConnectionLikeError (some "timed out") = false := by decide

example : isConnectionLikeError (some "request timed out") = true := by decide

/-- C4 counterexample: the message "timed out" contains the substring
"timed out" from the claimed keyword set, yet
`_is_connection_like_error` classifies it as not connection-like — the
source keyword is "request timed out", not "timed out". -/
theorem C4_counterexample :
    isConnectionLikeError (some "timed out") = false ∧
      "timed out" ∈ claimedConnectionKeywords ∧
      strContains (pyLower "timed out") "timed out" = true := by
  decide

/-- C4 (amended): a failure message is classified connection-like iff
its lowercased text contains one of the exact substrings
"connection error", "request timed out", "timeout", "connect",
"network", "ssl", "tls" (so "request timed out" rather than the
claimed "timed out"). -/
theorem C4_connection_classifier (m : String) :
    isConnectionLikeError (some m) = true ↔
      ∃ k ∈ connectionKeywords, k.data <:+: (pyLower m).data := by
  by_cases hm : m = ""
  · subst hm
    rw [show isConnectionLikeError (some "") = false from by decide]
    refine ⟨fun h => absurd h (by decide), ?_⟩
    rintro ⟨k, hk, hinf⟩
    exfalso
    have hk0 : k.data = [] := by
      simpa [pyLower] using List.eq_nil_of_infix_nil hinf
    have hke : k = "" := by
      cases k
      simp_all [String.data]
    subst hke
    revert hk
    decide
  · simp [isConnectionLikeError, if_neg hm, List.any_eq_true, strContains_iff]

/-! ## Binary64 rounding

The backoff jitter below is computed by the source in Python float
(IEEE binary64) arithmetic: `jitter_bucket / 100` is a correctly
rounded division of two exactly-converted small integers, and
`base_ms * (...)` is a correctly rounded product (with `base_ms`
converted exactly for `|base_ms| ≤ 2^53`).  `flq` models the correctly
rounded binary64 value of a non-negative rational: round the 53-bit
significand to nearest, ties to even.  Exponent-range effects
(overflow, subnormals) are outside the magnitudes reached here and are
not modelled. -/

/-- Fuel-driven ⌊log₂⌋ on ℕ (kernel-reducible). -/
def log2Fuel : Nat → Nat → Nat
  | 0, _ => 0
  | fuel + 1, n => if n ≤ 1 then 0 else log2Fuel fuel (n / 2) + 1

/-- ⌊log₂ n⌋ for n ≥ 1. -/
def natLog2 (n : Nat) : Nat := log2Fuel n n

theorem log2Fuel_spec (fuel : Nat) : ∀ n : Nat, 1 ≤ n → n ≤ fuel →
    2 ^ log2Fuel fuel n ≤ n ∧ n < 2 ^ (log2Fuel fuel n + 1) := by
  induction fuel with
  | zero => omega
  | succ fuel ih =>
    intro n h1 h2
    by_cases hn : n ≤ 1
    · have hone : n = 1 := by omega
      subst hone
      simp [log2Fuel]
    · have hrec := ih (n / 2) (by omega) (by omega)
      simp only [log2Fuel, if_neg hn]
      have hs1 : 2 ^ (log2Fuel fuel (n / 2) + 1) =
          2 * 2 ^ log2Fuel fuel (n / 2) := by ring
      have hs2 : 2 ^ (log2Fuel fuel (n / 2) + 1 + 1) =
          2 * 2 ^ (log2Fuel fuel (n / 2) + 1) := by ring
      rw [hs1, hs2]
      omega

theorem natLog2_spec (n : Nat) (h : 1 ≤ n) :
    2 ^ natLog2 n ≤ n ∧ n < 2 ^ (natLog2 n + 1) :=
  log2Fuel_spec n n h le_rfl

/-- Round to nearest integer, ties to even. -/
def rneInt (s : ℚ) : Int :=
  if s - ⌊s⌋ < 1 / 2 then ⌊s⌋
  else if 1 / 2 < s - ⌊s⌋ then ⌊s⌋ + 1
  else if ⌊s⌋ % 2 = 0 then ⌊s⌋ else ⌊s⌋ + 1

theorem rneInt_floor_le (s : ℚ) : ⌊s⌋ ≤ rneInt s := by
  unfold rneInt
  split_ifs <;> omega

theorem rneInt_le_floor_add_one (s : ℚ) : rneInt s ≤ ⌊s⌋ + 1 := by
  unfold rneInt
  split_ifs <;> omega

theorem rneInt_err (s : ℚ) : |(rneInt s : ℚ) - s| ≤ 1 / 2 := by
  have h1 : (⌊s⌋ : ℚ) ≤ s := Int.floor_le s
  have h2 : s < ⌊s⌋ + 1 := Int.lt_floor_add_one s
  rw [abs_le]
  unfold rneInt
  split_ifs <;> constructor <;> first | linarith | (push_cast; linarith)

theorem rneInt_intCast (z : Int) : rneInt (z : ℚ) = z := by
  unfold rneInt
  norm_num [Int.floor_intCast]

theorem rneInt_mono {s t : ℚ} (h : s ≤ t) : rneInt s ≤ rneInt t := by
  have hf := Int.floor_le_floor h
  rcases eq_or_lt_of_le hf with heq | hlt
  · have h1 : s - ⌊s⌋ ≤ t - ⌊t⌋ := by
      rw [← heq]
      linarith
    unfold rneInt
    rw [← heq]
    split_ifs <;> first | omega | (exfalso; linarith)
  · calc rneInt s ≤ ⌊s⌋ + 1 := rneInt_le_floor_add_one s
      _ ≤ ⌊t⌋ := hlt
      _ ≤ rneInt t := rneInt_floor_le t

/-- ⌊log₂ q⌋ on positive rationals, via the numerator's and
denominator's integer logarithms. -/
def ratLog2 (q : ℚ) : Int :=
  if (2 : ℚ) ^ ((natLog2 q.num.toNat : Int) - natLog2 q.den) ≤ q then
    (natLog2 q.num.toNat : Int) - natLog2 q.den
  else (natLog2 q.num.toNat : Int) - natLog2 q.den - 1

theorem two_zpow_mono {m n : Int} (h : m ≤ n) : (2 : ℚ) ^ m ≤ (2 : ℚ) ^ n :=
  zpow_le_zpow_right₀ (by norm_num) h

theorem two_zpow_pos (n : Int) : (0 : ℚ) < 2 ^ n :=
  zpow_pos (by norm_num) n

theorem ratLog2_spec (q : ℚ) (hq : 0 < q) :
    (2 : ℚ) ^ ratLog2 q ≤ q ∧ q < (2 : ℚ) ^ (ratLog2 q + 1) := by
  have hnum : 0 < q.num := Rat.num_pos.mpr hq
  have hn1 : 1 ≤ q.num.toNat := by omega
  have hd1 : 1 ≤ q.den := q.den_pos
  obtain ⟨ha1, ha2⟩ := natLog2_spec q.num.toNat hn1
  obtain ⟨hb1, hb2⟩ := natLog2_spec q.den hd1
  have hdq : (0 : ℚ) < (q.den : ℚ) := by exact_mod_cast hd1
  have hqd : q * (q.den : ℚ) = (q.num.toNat : ℚ) := by
    have hcast : ((q.num.toNat : ℚ)) = ((q.num : Int) : ℚ) := by
      exact_mod_cast Int.toNat_of_nonneg hnum.le
    rw [hcast]
    nth_rewrite 1 [← Rat.num_div_den q]
    rw [div_mul_cancel₀]
    exact ne_of_gt hdq
  have h2b : (2 : ℚ) ^ ((natLog2 q.den : Nat) : Int) ≤ (q.den : ℚ) := by
    rw [zpow_natCast]
    exact_mod_cast hb1
  have h2b' : (q.den : ℚ) < (2 : ℚ) ^ (((natLog2 q.den : Nat) : Int) + 1) := by
    rw [show ((natLog2 q.den : Nat) : Int) + 1 = ((natLog2 q.den + 1 : Nat) : Int)
        by push_cast; ring, zpow_natCast]
    exact_mod_cast hb2
  have h2a : (2 : ℚ) ^ ((natLog2 q.num.toNat : Nat) : Int) ≤ (q.num.toNat : ℚ) := by
    rw [zpow_natCast]
    exact_mod_cast ha1
  have h2a' : (q.num.toNat : ℚ) <
      (2 : ℚ) ^ (((natLog2 q.num.toNat : Nat) : Int) + 1) := by
    rw [show ((natLog2 q.num.toNat : Nat) : Int) + 1 =
        ((natLog2 q.num.toNat + 1 : Nat) : Int) by push_cast; ring, zpow_natCast]
    exact_mod_cast ha2
  have hA : q < (2 : ℚ) ^ ((natLog2 q.num.toNat : Int) - natLog2 q.den + 1) := by
    have step1 : q * (2 : ℚ) ^ ((natLog2 q.den : Nat) : Int) ≤ (q.num.toNat : ℚ) := by
      calc q * (2 : ℚ) ^ ((natLog2 q.den : Nat) : Int) ≤ q * (q.den : ℚ) :=
            mul_le_mul_of_nonneg_left h2b hq.le
        _ = _ := hqd
    have step2 : q * (2 : ℚ) ^ ((natLog2 q.den : Nat) : Int) <
        (2 : ℚ) ^ (((natLog2 q.num.toNat : Nat) : Int) + 1) :=
      lt_of_le_of_lt step1 h2a'
    have step3 : q < (2 : ℚ) ^ (((natLog2 q.num.toNat : Nat) : Int) + 1) /
        (2 : ℚ) ^ ((natLog2 q.den : Nat) : Int) :=
      (lt_div_iff₀ (two_zpow_pos _)).mpr step2
    calc q < _ := step3
      _ = (2 : ℚ) ^ ((natLog2 q.num.toNat : Int) - natLog2 q.den + 1) := by
        rw [← zpow_sub₀ (by norm_num : (2 : ℚ) ≠ 0)]
        congr 1
        ring
  have hB : (2 : ℚ) ^ ((natLog2 q.num.toNat : Int) - natLog2 q.den - 1) < q := by
    have step1 : (2 : ℚ) ^ ((natLog2 q.num.toNat : Nat) : Int) <
        q * (2 : ℚ) ^ (((natLog2 q.den : Nat) : Int) + 1) := by
      calc (2 : ℚ) ^ ((natLog2 q.num.toNat : Nat) : Int) ≤ (q.num.toNat : ℚ) := h2a
        _ = q * (q.den : ℚ) := hqd.symm
        _ < q * (2 : ℚ) ^ (((natLog2 q.den : Nat) : Int) + 1) :=
            mul_lt_mul_of_pos_left h2b' hq
    have step2 : (2 : ℚ) ^ ((natLog2 q.num.toNat : Nat) : Int) /
        (2 : ℚ) ^ (((natLog2 q.den : Nat) : Int) + 1) < q :=
      (div_lt_iff₀ (two_zpow_pos _)).mpr step1
    calc (2 : ℚ) ^ ((natLog2 q.num.toNat : Int) - natLog2 q.den - 1)
        = (2 : ℚ) ^ ((natLog2 q.num.toNat : Nat) : Int) /
            (2 : ℚ) ^ (((natLog2 q.den : Nat) : Int) + 1) := by
          rw [← zpow_sub₀ (by norm_num : (2 : ℚ) ≠ 0)]
          congr 1
          ring
      _ < q := step2
  unfold ratLog2
  split_ifs with hc
  · exact ⟨hc, hA⟩
  · refine ⟨le_of_lt hB, ?_⟩
    rw [show (natLog2 q.num.toNat : Int) - natLog2 q.den - 1 + 1 =
        (natLog2 q.num.toNat : Int) - natLog2 q.den by ring]
    exact lt_of_not_le hc

/-- The correctly rounded binary64 value of a rational (non-positive
inputs map to 0; all inputs rounded here are non-negative). -/
def flq (q : ℚ) : ℚ :=
  if q ≤ 0 then 0
  else (rneInt (q * 2 ^ (52 - ratLog2 q)) : ℚ) * 2 ^ (ratLog2 q - 52)

theorem flq_pos_eq (q : ℚ) (hq : 0 < q) :
    flq q = (rneInt (q * 2 ^ (52 - ratLog2 q)) : ℚ) * 2 ^ (ratLog2 q - 52) := by
  unfold flq
  rw [if_neg (not_le.mpr hq)]

theorem flq_scaled_bounds (q : ℚ) (hq : 0 < q) :
    (2 : ℚ) ^ (52 : Int) ≤ q * 2 ^ (52 - ratLog2 q) ∧
      q * 2 ^ (52 - ratLog2 q) < (2 : ℚ) ^ (53 : Int) := by
  obtain ⟨h1, h2⟩ := ratLog2_spec q hq
  have hp := two_zpow_pos (52 - ratLog2 q)
  constructor
  · have e52 : (2 : ℚ) ^ (52 : Int) =
        2 ^ ratLog2 q * 2 ^ (52 - ratLog2 q) := by
      rw [← zpow_add₀ (by norm_num : (2 : ℚ) ≠ 0)]
      congr 1
      ring
    rw [e52]
    exact mul_le_mul_of_nonneg_right h1 hp.le
  · have e53 : (2 : ℚ) ^ (53 : Int) =
        2 ^ (ratLog2 q + 1) * 2 ^ (52 - ratLog2 q) := by
      rw [← zpow_add₀ (by norm_num : (2 : ℚ) ≠ 0)]
      congr 1
      ring
    rw [e53]
    exact mul_lt_mul_of_pos_right h2 hp

theorem flq_lower (q : ℚ) (hq : 0 < q) : (2 : ℚ) ^ ratLog2 q ≤ flq q := by
  obtain ⟨hs1, _⟩ := flq_scaled_bounds q hq
  rw [flq_pos_eq q hq]
  have hfl : (2 ^ 52 : Int) ≤ ⌊q * 2 ^ (52 - ratLog2 q)⌋ :=
    Int.le_floor.mpr (by exact_mod_cast hs1)
  have hrne : (2 ^ 52 : Int) ≤ rneInt (q * 2 ^ (52 - ratLog2 q)) :=
    le_trans hfl (rneInt_floor_le _)
  have hcast : (2 : ℚ) ^ (52 : Int) ≤ (rneInt (q * 2 ^ (52 - ratLog2 q)) : ℚ) := by
    exact_mod_cast hrne
  calc (2 : ℚ) ^ ratLog2 q = 2 ^ (52 : Int) * 2 ^ (ratLog2 q - 52) := by
        rw [← zpow_add₀ (by norm_num : (2 : ℚ) ≠ 0)]
        congr 1
        ring
    _ ≤ _ := mul_le_mul_of_nonneg_right hcast (two_zpow_pos _).le

theorem flq_upper (q : ℚ) (hq : 0 < q) : flq q ≤ (2 : ℚ) ^ (ratLog2 q + 1) := by
  obtain ⟨_, hs2⟩ := flq_scaled_bounds q hq
  rw [flq_pos_eq q hq]
  have hfl : ⌊q * 2 ^ (52 - ratLog2 q)⌋ < (2 ^ 53 : Int) :=
    Int.floor_lt.mpr (by exact_mod_cast hs2)
  have hrne : rneInt (q * 2 ^ (52 - ratLog2 q)) ≤ (2 ^ 53 : Int) :=
    le_trans (rneInt_le_floor_add_one _) (by omega)
  have hcast : (rneInt (q * 2 ^ (52 - ratLog2 q)) : ℚ) ≤ (2 : ℚ) ^ (53 : Int) := by
    exact_mod_cast hrne
  calc _ ≤ (2 : ℚ) ^ (53 : Int) * 2 ^ (ratLog2 q - 52) :=
        mul_le_mul_of_nonneg_right hcast (two_zpow_pos _).le
    _ = (2 : ℚ) ^ (ratLog2 q + 1) := by
        rw [← zpow_add₀ (by norm_num : (2 : ℚ) ≠ 0)]
        congr 1
        ring

theorem flq_err (q : ℚ) (hq : 0 < q) :
    |flq q - q| ≤ (2 : ℚ) ^ (ratLog2 q - 53) := by
  rw [flq_pos_eq q hq]
  have hqe : q = q * 2 ^ (52 - ratLog2 q) * 2 ^ (ratLog2 q - 52) := by
    rw [mul_assoc, ← zpow_add₀ (by norm_num : (2 : ℚ) ≠ 0)]
    rw [show 52 - ratLog2 q + (ratLog2 q - 52) = 0 by ring, zpow_zero, mul_one]
  calc |(rneInt (q * 2 ^ (52 - ratLog2 q)) : ℚ) * 2 ^ (ratLog2 q - 52) - q|
      = |(rneInt (q * 2 ^ (52 - ratLog2 q)) : ℚ) - q * 2 ^ (52 - ratLog2 q)| *
          |(2 : ℚ) ^ (ratLog2 q - 52)| := by
        rw [← abs_mul]
        have harg : (rneInt (q * 2 ^ (52 - ratLog2 q)) : ℚ) * 2 ^ (ratLog2 q - 52)
            - q =
            ((rneInt (q * 2 ^ (52 - ratLog2 q)) : ℚ) -
              q * 2 ^ (52 - ratLog2 q)) * 2 ^ (ratLog2 q - 52) := by
          rw [sub_mul, ← hqe]
        rw [harg]
    _ ≤ (1 / 2) * (2 : ℚ) ^ (ratLog2 q - 52) := by
        rw [abs_of_pos (two_zpow_pos _)]
        exact mul_le_mul_of_nonneg_right (rneInt_err _) (two_zpow_pos _).le
    _ = (2 : ℚ) ^ (ratLog2 q - 53) := by
        rw [show (1 : ℚ) / 2 = (2 : ℚ) ^ (-1 : Int) by norm_num,
          ← zpow_add₀ (by norm_num : (2 : ℚ) ≠ 0),
          show -1 + (ratLog2 q - 52) = ratLog2 q - 53 by ring]

theorem flq_nonneg (q : ℚ) : 0 ≤ flq q := by
  by_cases hq : q ≤ 0
  · simp [flq, hq]
  · exact le_of_lt (lt_of_lt_of_le (two_zpow_pos _)
      (flq_lower q (lt_of_not_le hq)))

theorem flq_mono {x y : ℚ} (h : x ≤ y) : flq x ≤ flq y := by
  by_cases hx : x ≤ 0
  · rw [show flq x = 0 by simp [flq, hx]]
    exact flq_nonneg y
  · have hx' : 0 < x := lt_of_not_le hx
    have hy' : 0 < y := lt_of_lt_of_le hx' h
    have hee : ratLog2 x ≤ ratLog2 y := by
      by_contra hcon
      push_neg at hcon
      have h1 : ratLog2 y + 1 ≤ ratLog2 x := hcon
      have h2 := two_zpow_mono h1
      have h3 := (ratLog2_spec x hx').1
      have h4 := (ratLog2_spec y hy').2
      linarith
    rcases eq_or_lt_of_le hee with heq | hlt
    · rw [flq_pos_eq x hx', flq_pos_eq y hy', ← heq]
      have hs : x * 2 ^ (52 - ratLog2 x) ≤ y * 2 ^ (52 - ratLog2 x) :=
        mul_le_mul_of_nonneg_right h (two_zpow_pos _).le
      have hrne : (rneInt (x * 2 ^ (52 - ratLog2 x)) : ℚ) ≤
          (rneInt (y * 2 ^ (52 - ratLog2 x)) : ℚ) := by
        exact_mod_cast rneInt_mono hs
      exact mul_le_mul_of_nonneg_right hrne (two_zpow_pos _).le
    · calc flq x ≤ (2 : ℚ) ^ (ratLog2 x + 1) := flq_upper x hx'
        _ ≤ (2 : ℚ) ^ ratLog2 y := two_zpow_mono (by omega)
        _ ≤ flq y := flq_lower y hy'

theorem flq_int_exact (m : Int) (h1 : 0 < m) (h2 : m ≤ 2 ^ 53) :
    flq (m : ℚ) = m := by
  have hq : (0 : ℚ) < (m : ℚ) := by exact_mod_cast h1
  obtain ⟨hl, hu⟩ := ratLog2_spec (m : ℚ) hq
  have he53 : ratLog2 (m : ℚ) ≤ 53 := by
    by_contra hcon
    push_neg at hcon
    have hb : (2 : ℚ) ^ (54 : Int) ≤ (2 : ℚ) ^ ratLog2 (m : ℚ) :=
      two_zpow_mono (by omega)
    have hm : (m : ℚ) ≤ (2 : ℚ) ^ (53 : Int) := by
      rw [show (53 : Int) = ((53 : Nat) : Int) by norm_num, zpow_natCast]
      exact_mod_cast h2
    have h54 : (2 : ℚ) ^ (53 : Int) < (2 : ℚ) ^ (54 : Int) := by
      norm_num
    linarith
  by_cases he : ratLog2 (m : ℚ) ≤ 52
  · have hk : (52 : Int) - ratLog2 (m : ℚ) =
        ((52 - ratLog2 (m : ℚ)).toNat : Int) :=
      (Int.toNat_of_nonneg (by omega)).symm
    have hsint : (m : ℚ) * 2 ^ (52 - ratLog2 (m : ℚ)) =
        ((m * 2 ^ (52 - ratLog2 (m : ℚ)).toNat : Int) : ℚ) := by
      push_cast
      rw [← zpow_natCast (2 : ℚ) (52 - ratLog2 (m : ℚ)).toNat, ← hk]
    rw [flq_pos_eq _ hq, hsint, rneInt_intCast, ← hsint, mul_assoc,
      ← zpow_add₀ (by norm_num : (2 : ℚ) ≠ 0),
      show 52 - ratLog2 (m : ℚ) + (ratLog2 (m : ℚ) - 52) = 0 by ring,
      zpow_zero, mul_one]
  · have he' : ratLog2 (m : ℚ) = 53 := by omega
    have hm53 : (m : ℚ) = (2 : ℚ) ^ (53 : Int) := by
      have hge : (2 : ℚ) ^ (53 : Int) ≤ (m : ℚ) := by
        rw [← he']
        exact hl
      have hle : (m : ℚ) ≤ (2 : ℚ) ^ (53 : Int) := by
        rw [show (53 : Int) = ((53 : Nat) : Int) by norm_num, zpow_natCast]
        exact_mod_cast h2
      linarith
    rw [flq_pos_eq _ hq, he', hm53]
    rw [show (2 : ℚ) ^ (53 : Int) * 2 ^ ((52 : Int) - 53) = ((2 ^ 52 : Int) : ℚ) by
      norm_num]
    rw [rneInt_intCast]
    norm_num

/-- The dyadic exponent is determined by the sandwich property. -/
theorem ratLog2_eq (q : ℚ) (e : Int) (h1 : (2 : ℚ) ^ e ≤ q)
    (h2 : q < 2 ^ (e + 1)) : ratLog2 q = e := by
  have hq : 0 < q := lt_of_lt_of_le (two_zpow_pos e) h1
  obtain ⟨hs1, hs2⟩ := ratLog2_spec q hq
  by_contra hne
  rcases lt_or_gt_of_ne hne with hlt | hgt
  · have hmono : (2 : ℚ) ^ (ratLog2 q + 1) ≤ 2 ^ e := two_zpow_mono (by omega)
    linarith
  · have hmono : (2 : ℚ) ^ (e + 1) ≤ 2 ^ ratLog2 q := two_zpow_mono (by omega)
    linarith

/-- Evaluation helper: round-to-nearest when the fraction is below
one half. -/
theorem rneInt_eval_down (s : ℚ) (f : Int) (hf : (f : ℚ) ≤ s)
    (hlt : s < (f : ℚ) + 1 / 2) : rneInt s = f := by
  have hfl : ⌊s⌋ = f := Int.floor_eq_iff.mpr ⟨hf, by linarith⟩
  unfold rneInt
  rw [hfl, if_pos (by linarith)]

/-- Evaluation helper: round-to-nearest when the fraction is above
one half. -/
theorem rneInt_eval_up (s : ℚ) (f : Int) (hf : (f : ℚ) + 1 / 2 < s)
    (hlt : s < (f : ℚ) + 1) : rneInt s = f + 1 := by
  have hfl : ⌊s⌋ = f := Int.floor_eq_iff.mpr ⟨by linarith, by linarith⟩
  unfold rneInt
  rw [hfl, if_neg (by linarith), if_pos (by linarith)]

/-- Evaluation helper for `flq` from the exponent sandwich and the
rounded significand. -/
theorem flq_eval (q : ℚ) (e m : Int) (h1 : (2 : ℚ) ^ e ≤ q)
    (h2 : q < 2 ^ (e + 1)) (h3 : rneInt (q * 2 ^ (52 - e)) = m) :
    flq q = (m : ℚ) * 2 ^ (e - 52) := by
  have hq : 0 < q := lt_of_lt_of_le (two_zpow_pos e) h1
  rw [flq_pos_eq q hq, ratLog2_eq q e h1 h2, h3]

/-- `flq` is exact on dyadic rationals with at most 53 significand
bits. -/
theorem flq_dyadic (m t : Int) (h1 : 0 < m) (h2 : m ≤ 2 ^ 53) :
    flq ((m : ℚ) * 2 ^ t) = (m : ℚ) * 2 ^ t := by
  have c2 : (2 : ℚ) ≠ 0 := by norm_num
  have hq : (0 : ℚ) < (m : ℚ) * 2 ^ t :=
    mul_pos (by exact_mod_cast h1) (two_zpow_pos t)
  obtain ⟨hl, hu⟩ := ratLog2_spec _ hq
  have hm53 : (m : ℚ) ≤ (2 : ℚ) ^ (53 : Int) := by
    rw [show (53 : Int) = ((53 : Nat) : Int) by norm_num, zpow_natCast]
    exact_mod_cast h2
  have he53 : ratLog2 ((m : ℚ) * 2 ^ t) ≤ 53 + t := by
    by_contra hcon
    push_neg at hcon
    have hb : (2 : ℚ) ^ (54 + t) ≤ (2 : ℚ) ^ ratLog2 ((m : ℚ) * 2 ^ t) :=
      two_zpow_mono (by omega)
    have hmt : (m : ℚ) * 2 ^ t ≤ (2 : ℚ) ^ (53 + t) := by
      calc (m : ℚ) * 2 ^ t ≤ (2 : ℚ) ^ (53 : Int) * 2 ^ t :=
            mul_le_mul_of_nonneg_right hm53 (two_zpow_pos t).le
        _ = (2 : ℚ) ^ (53 + t) := by rw [← zpow_add₀ c2]
    have h54 : (2 : ℚ) ^ (53 + t) < (2 : ℚ) ^ (54 + t) := by
      have hp := two_zpow_pos (53 + t)
      have he : (2 : ℚ) ^ (54 + t) = 2 * (2 : ℚ) ^ (53 + t) := by
        rw [show (54 : Int) + t = 1 + (53 + t) by ring, zpow_add₀ c2, zpow_one]
      rw [he]
      linarith
    linarith
  by_cases he : ratLog2 ((m : ℚ) * 2 ^ t) ≤ 52 + t
  · have hk : (52 : Int) + t - ratLog2 ((m : ℚ) * 2 ^ t) =
        (((52 : Int) + t - ratLog2 ((m : ℚ) * 2 ^ t)).toNat : Int) :=
      (Int.toNat_of_nonneg (by omega)).symm
    have hsint : (m : ℚ) * 2 ^ t * 2 ^ (52 - ratLog2 ((m : ℚ) * 2 ^ t)) =
        ((m * 2 ^ ((52 : Int) + t - ratLog2 ((m : ℚ) * 2 ^ t)).toNat : Int) : ℚ) := by
      push_cast
      rw [← zpow_natCast (2 : ℚ)
          ((52 : Int) + t - ratLog2 ((m : ℚ) * 2 ^ t)).toNat, ← hk, mul_assoc,
        ← zpow_add₀ c2,
        show t + (52 - ratLog2 ((m : ℚ) * 2 ^ t)) =
          52 + t - ratLog2 ((m : ℚ) * 2 ^ t) by ring]
    rw [flq_pos_eq _ hq, hsint, rneInt_intCast, ← hsint,
      show (m : ℚ) * 2 ^ t * 2 ^ (52 - ratLog2 ((m : ℚ) * 2 ^ t)) *
          2 ^ (ratLog2 ((m : ℚ) * 2 ^ t) - 52) =
        (m : ℚ) * 2 ^ t *
          (2 ^ (52 - ratLog2 ((m : ℚ) * 2 ^ t)) *
            2 ^ (ratLog2 ((m : ℚ) * 2 ^ t) - 52)) by ring,
      ← zpow_add₀ c2,
      show 52 - ratLog2 ((m : ℚ) * 2 ^ t) + (ratLog2 ((m : ℚ) * 2 ^ t) - 52) = 0
        by ring,
      zpow_zero, mul_one]
  · have he' : ratLog2 ((m : ℚ) * 2 ^ t) = 53 + t := by omega
    have hmeq : (m : ℚ) = (2 : ℚ) ^ (53 : Int) := by
      have hge : (2 : ℚ) ^ ((53 : Int) + t) ≤ (m : ℚ) * 2 ^ t := by
        rw [← he']
        exact hl
      have h1' : (2 : ℚ) ^ (53 : Int) * 2 ^ t ≤ (m : ℚ) * 2 ^ t := by
        rw [zpow_add₀ c2] at hge
        exact hge
      have := le_of_mul_le_mul_right h1' (two_zpow_pos t)
      linarith
    rw [flq_pos_eq _ hq, he']
    have hs : (m : ℚ) * 2 ^ t * 2 ^ (52 - (53 + t)) = ((2 ^ 52 : Int) : ℚ) := by
      rw [hmeq,
        show (2 : ℚ) ^ (53 : Int) * 2 ^ t * 2 ^ (52 - (53 + t)) =
          (2 : ℚ) ^ ((53 : Int) + t + (52 - (53 + t))) by
            rw [zpow_add₀ c2, zpow_add₀ c2],
        show (53 : Int) + t + (52 - (53 + t)) = 52 by ring]
      norm_num
    rw [hs, rneInt_intCast, hmeq,
      show ((2 ^ 52 : Int) : ℚ) = (2 : ℚ) ^ (52 : Int) by norm_num,
      ← zpow_add₀ c2, ← zpow_add₀ c2,
      show (52 : Int) + (53 + t - 52) = 53 + t by ring]

/-! ## Retry backoff

Embedding of `MarketInsightGraphEngine._compute_backoff_ms`
(`backend/core/graph_engine.py`).  The jitter bucket is
`sum(token) % 41` over the UTF-8 bytes of `f"{jitter_key}:{attempt}"`;
the jitter amount `int(base_ms * (jitter_bucket / 100))` is evaluated
in binary64 float arithmetic, modelled exactly by `flq` above. -/

/-- UTF-8 encoding of one character, as byte values (Python
`str.encode("utf-8")` per character). -/
def utf8Bytes (c : Char) : List Nat :=
  let n := c.toNat
  if n < 0x80 then [n]
  else if n < 0x800 then
    [0xC0 + n / 0x40, 0x80 + n % 0x40]
  else if n < 0x10000 then
    [0xE0 + n / 0x1000, 0x80 + n / 0x40 % 0x40, 0x80 + n % 0x40]
  else
    [0xF0 + n / 0x40000, 0x80 + n / 0x1000 % 0x40,
     0x80 + n / 0x40 % 0x40, 0x80 + n % 0x40]

/-- Python `sum(s.encode("utf-8"))`. -/
def strByteSum (s : String) : Nat :=
  s.data.foldl (fun acc c => acc + (utf8Bytes c).sum) 0

/-- The jitter bucket `sum((key + ":" + str(attempt)).encode()) % 41`. -/
def jitterBucket (key : String) (attempt : Int) : Nat :=
  strByteSum (key ++ ":" ++ toString attempt) % 41

/-- The jitter amount `int(base_ms * (jitter_bucket / 100))` exactly
as Python evaluates it: `jitter_bucket / 100` is a correctly rounded
float division of two exactly-converted integers, the product with
the float-converted base is a correctly rounded float multiplication,
and `int()` truncates the non-negative result, i.e. takes the
floor. -/
def jitterMs (baseMs : Int) (bucket : Nat) : Int :=
  ⌊flq (flq (baseMs : ℚ) * flq ((bucket : ℚ) / 100))⌋

/-- Embedding of `_compute_backoff_ms`. -/
def computeBackoffMs (baseMs attempt : Int) (jitterKey : Option String) : Int :=
  if baseMs ≤ 0 then 0
  else
    let delay := baseMs * 2 ^ (max 0 (attempt - 1)).toNat
    match jitterKey with
    | none => delay
    | some key => delay + jitterMs baseMs (jitterBucket key attempt)

/-- The backoff value as the claim states it (jitter scaled by the
same exponential factor as the base term), in exact arithmetic. -/
def claimedBackoffMs (baseMs attempt : Int) (key : String) : ℚ :=
  (baseMs : ℚ) * 2 ^ (max 0 (attempt - 1)).toNat *
    (1 + (jitterBucket key attempt : ℚ) / 100)

/-- Any jitter bucket is at most 40. -/
theorem jitterBucket_le (key : String) (attempt : Int) :
    jitterBucket key attempt ≤ 40 := by
  have h41 := Nat.mod_lt (strByteSum (key ++ ":" ++ toString attempt))
    (show 0 < 41 by norm_num)
  unfold jitterBucket
  omega

/-- The jitter amount is never negative. -/
theorem jitterMs_nonneg (baseMs : Int) (bucket : Nat) :
    0 ≤ jitterMs baseMs bucket :=
  Int.floor_nonneg.mpr (flq_nonneg _)

/-- Bounds on the float-computed jitter for a base representable
exactly in binary64: it stays at most 41% of the base, and within one
of the exact integer value `base * bucket / 100`. -/
theorem jitterMs_bounds (b : Int) (j : Nat) (hb : 0 < b)
    (hb53 : b ≤ 2 ^ 53) (hj : j ≤ 40) :
    100 * jitterMs b j ≤ 41 * b ∧
      b * (j : Int) / 100 - 1 ≤ jitterMs b j ∧
      jitterMs b j ≤ b * (j : Int) / 100 + 1 := by
  have hbq : (0 : ℚ) < (b : ℚ) := by exact_mod_cast hb
  have hb1 : (1 : ℚ) ≤ (b : ℚ) := by exact_mod_cast hb
  have hbq53 : (b : ℚ) ≤ 9007199254740992 := by
    have h2 : ((2 ^ 53 : Int) : ℚ) = 9007199254740992 := by norm_num
    rw [← h2]
    exact_mod_cast hb53
  have hbase : flq ((b : ℚ)) = (b : ℚ) := flq_int_exact b hb hb53
  have hEfloor : ⌊((b : ℚ) * (j : ℚ)) / 100⌋ = b * (j : Int) / 100 := by
    have h := Rat.floor_intCast_div_natCast (b * (j : Int)) 100
    have hcast : (((b * (j : Int) : Int)) : ℚ) / (((100 : Nat)) : ℚ) =
        ((b : ℚ) * (j : ℚ)) / 100 := by
      push_cast
      ring
    rw [hcast] at h
    exact_mod_cast h
  by_cases hj0 : j = 0
  · subst hj0
    have hf0 : flq 0 = 0 := by simp [flq]
    have hjit : jitterMs b 0 = 0 := by
      unfold jitterMs
      rw [show (((0 : Nat) : ℚ) / 100) = 0 by norm_num, hf0, mul_zero, hf0,
        Int.floor_zero]
    simp only [hjit, Nat.cast_zero, mul_zero]
    omega
  · have hj1 : 1 ≤ j := Nat.one_le_iff_ne_zero.mpr hj0
    have hjq : (0 : ℚ) < (j : ℚ) := by exact_mod_cast hj1
    set qb : ℚ := (j : ℚ) / 100 with hqb_def
    have hqbpos : 0 < qb := by
      rw [hqb_def]
      exact div_pos hjq (by norm_num)
    have hqb40 : qb ≤ 2 / 5 := by
      rw [hqb_def]
      have hj40 : (j : ℚ) ≤ 40 := by exact_mod_cast hj
      linarith
    set u : ℚ := (2 : ℚ) ^ (-53 : Int) with hu_def
    clear_value qb u
    have hupos : 0 ≤ u := by
      rw [hu_def]
      exact (two_zpow_pos _).le
    have huval : u = 1 / 9007199254740992 := by
      rw [hu_def]
      norm_num
    have herrx := abs_le.mp (flq_err qb hqbpos)
    have hpow_x : (2 : ℚ) ^ (ratLog2 qb - 53) ≤ qb * u := by
      have hsplit : (2 : ℚ) ^ (ratLog2 qb - 53) = 2 ^ ratLog2 qb * u := by
        rw [hu_def, ← zpow_add₀ (by norm_num : (2 : ℚ) ≠ 0)]
        congr 1
      rw [hsplit]
      exact mul_le_mul_of_nonneg_right (ratLog2_spec qb hqbpos).1 hupos
    have hx_up : flq qb ≤ qb + qb * u := by
      have h2 := herrx.2
      linarith
    have hx_lo : qb - qb * u ≤ flq qb := by
      have h1 := herrx.1
      linarith
    have hx_pos : 0 < flq qb :=
      lt_of_lt_of_le (two_zpow_pos _) (flq_lower qb hqbpos)
    have hz_pos : 0 < (b : ℚ) * flq qb := mul_pos hbq hx_pos
    have herrz := abs_le.mp (flq_err ((b : ℚ) * flq qb) hz_pos)
    have hpow_z : (2 : ℚ) ^ (ratLog2 ((b : ℚ) * flq qb) - 53) ≤
        ((b : ℚ) * flq qb) * u := by
      have hsplit : (2 : ℚ) ^ (ratLog2 ((b : ℚ) * flq qb) - 53) =
          2 ^ ratLog2 ((b : ℚ) * flq qb) * u := by
        rw [hu_def, ← zpow_add₀ (by norm_num : (2 : ℚ) ≠ 0)]
        congr 1
      rw [hsplit]
      exact mul_le_mul_of_nonneg_right
        (ratLog2_spec ((b : ℚ) * flq qb) hz_pos).1 hupos
    have hfz_up : flq ((b : ℚ) * flq qb) ≤
        (b : ℚ) * flq qb + ((b : ℚ) * flq qb) * u := by
      have h2 := herrz.2
      linarith
    have hfz_lo : (b : ℚ) * flq qb - ((b : ℚ) * flq qb) * u ≤
        flq ((b : ℚ) * flq qb) := by
      have h1 := herrz.1
      linarith
    have hzx_up : (b : ℚ) * flq qb ≤ (b : ℚ) * qb + (b : ℚ) * qb * u := by
      calc (b : ℚ) * flq qb ≤ (b : ℚ) * (qb + qb * u) :=
            mul_le_mul_of_nonneg_left hx_up hbq.le
        _ = (b : ℚ) * qb + (b : ℚ) * qb * u := by ring
    have hzx_lo : (b : ℚ) * qb - (b : ℚ) * qb * u ≤ (b : ℚ) * flq qb := by
      calc (b : ℚ) * qb - (b : ℚ) * qb * u
          = (b : ℚ) * (qb - qb * u) := by ring
        _ ≤ (b : ℚ) * flq qb := mul_le_mul_of_nonneg_left hx_lo hbq.le
    have hEu : (b : ℚ) * qb * u ≤ 2 / 5 := by
      have hE_le : (b : ℚ) * qb ≤ 9007199254740992 * (2 / 5) := by
        calc (b : ℚ) * qb ≤ 9007199254740992 * qb :=
              mul_le_mul_of_nonneg_right hbq53 hqbpos.le
          _ ≤ 9007199254740992 * (2 / 5) :=
              mul_le_mul_of_nonneg_left hqb40 (by norm_num)
      calc (b : ℚ) * qb * u ≤ 9007199254740992 * (2 / 5) * u :=
            mul_le_mul_of_nonneg_right hE_le hupos
        _ ≤ 2 / 5 := by
            rw [huval]
            norm_num
    have hbxu : ((b : ℚ) * flq qb) * u ≤ (b : ℚ) * qb * u + 2 / 5 * u := by
      have hstep : (b : ℚ) * flq qb ≤ (b : ℚ) * qb + 2 / 5 := by
        linarith
      calc ((b : ℚ) * flq qb) * u ≤ ((b : ℚ) * qb + 2 / 5) * u :=
            mul_le_mul_of_nonneg_right hstep hupos
        _ = (b : ℚ) * qb * u + 2 / 5 * u := by ring
    have hsmall : 2 / 5 * u ≤ 1 / 5 := by
      rw [huval]
      norm_num
    have hjr_up : flq ((b : ℚ) * flq qb) ≤ (b : ℚ) * qb + 1 := by
      linarith
    have hjr_lo : (b : ℚ) * qb - 1 ≤ flq ((b : ℚ) * flq qb) := by
      linarith
    have hqbu_le : qb * u ≤ 2 / 5 * u :=
      mul_le_mul_of_nonneg_right hqb40 hupos
    have hEu_b : (b : ℚ) * qb * u ≤ (b : ℚ) * (2 / 5 * u) := by
      calc (b : ℚ) * qb * u = (b : ℚ) * (qb * u) := by ring
        _ ≤ (b : ℚ) * (2 / 5 * u) := mul_le_mul_of_nonneg_left hqbu_le hbq.le
    have hconst_b : 2 / 5 * u ≤ (b : ℚ) * (2 / 5 * u) := by
      have h0 : (0 : ℚ) ≤ 2 / 5 * u := mul_nonneg (by norm_num) hupos
      calc (2 : ℚ) / 5 * u = 1 * (2 / 5 * u) := by ring
        _ ≤ (b : ℚ) * (2 / 5 * u) := mul_le_mul_of_nonneg_right hb1 h0
    have hE_b : (b : ℚ) * qb ≤ (b : ℚ) * (2 / 5) :=
      mul_le_mul_of_nonneg_left hqb40 hbq.le
    have hsum_b : (b : ℚ) * (2 / 5) + 3 * ((b : ℚ) * (2 / 5 * u)) ≤
        41 / 100 * (b : ℚ) := by
      have hcc : (2 : ℚ) / 5 + 3 * (2 / 5 * u) ≤ 41 / 100 := by
        rw [huval]
        norm_num
      calc (b : ℚ) * (2 / 5) + 3 * ((b : ℚ) * (2 / 5 * u))
          = (b : ℚ) * (2 / 5 + 3 * (2 / 5 * u)) := by ring
        _ ≤ (b : ℚ) * (41 / 100) := mul_le_mul_of_nonneg_left hcc hbq.le
        _ = 41 / 100 * (b : ℚ) := by ring
    have hfz41 : flq ((b : ℚ) * flq qb) ≤ 41 / 100 * (b : ℚ) := by
      linarith
    have hjit_eq : jitterMs b j = ⌊flq ((b : ℚ) * flq qb)⌋ := by
      unfold jitterMs
      rw [hbase, ← hqb_def]
    refine ⟨?_, ?_, ?_⟩
    · have h1 : ((⌊flq ((b : ℚ) * flq qb)⌋ : Int) : ℚ) ≤ 41 / 100 * (b : ℚ) :=
        le_trans (Int.floor_le _) hfz41
      have h2 : ((100 * jitterMs b j : Int) : ℚ) ≤ ((41 * b : Int) : ℚ) := by
        rw [hjit_eq]
        push_cast
        push_cast at h1
        linarith
      exact_mod_cast h2
    · rw [hjit_eq]
      apply Int.le_floor.mpr
      have hEfl : ((b * (j : Int) / 100 : Int) : ℚ) ≤ (b : ℚ) * qb := by
        rw [← hEfloor]
        calc ((⌊((b : ℚ) * (j : ℚ)) / 100⌋ : Int) : ℚ)
            ≤ ((b : ℚ) * (j : ℚ)) / 100 := Int.floor_le _
          _ = (b : ℚ) * qb := by
              rw [hqb_def]
              ring
      push_cast
      push_cast at hEfl
      linarith
    · rw [hjit_eq]
      have h1 : flq ((b : ℚ) * flq qb) ≤
          ((b : ℚ) * (j : ℚ)) / 100 + ((1 : Int) : ℚ) := by
        have hEq : (b : ℚ) * qb = ((b : ℚ) * (j : ℚ)) / 100 := by
          rw [hqb_def]
          ring
        push_cast
        linarith [hjr_up, hEq.le, hEq.ge]
      have h2 := Int.floor_le_floor h1
      rw [Int.floor_add_int, hEfloor] at h2
      exact h2

/-- Float anchor matching CPython: at base 100 and bucket 29 the
binary64 jitter `int(100 * (29/100))` is 28 ms, one below the exact
value `100*29/100 = 29`, because `29/100` rounds down in binary64 and
the product `100 * fl(29/100)` rounds to just below 29. -/
theorem jitterMs_float_vs_floor :
    jitterMs 100 29 = 28 ∧ (100 : Int) * 29 / 100 = 29 := by
  have hx : flq (((29 : Nat) : ℚ) / 100) =
      ((5224175567749775 : Int) : ℚ) * 2 ^ (-54 : Int) := by
    rw [flq_eval (((29 : Nat) : ℚ) / 100) (-2) 5224175567749775
      (by push_cast; norm_num) (by push_cast; norm_num)
      (rneInt_eval_down _ _ (by push_cast; norm_num) (by push_cast; norm_num))]
    norm_num
  have hb100 : flq ((100 : Int) : ℚ) = ((100 : Int) : ℚ) :=
    flq_int_exact 100 (by norm_num) (by norm_num)
  have hprod : ((100 : Int) : ℚ) *
        (((5224175567749775 : Int) : ℚ) * 2 ^ (-54 : Int)) =
      ((522417556774977500 : Int) : ℚ) * 2 ^ (-54 : Int) := by
    push_cast
    ring
  have hz : flq (((522417556774977500 : Int) : ℚ) * 2 ^ (-54 : Int)) =
      ((8162774324609023 : Int) : ℚ) * 2 ^ (-48 : Int) := by
    rw [flq_eval _ 4 8162774324609023
      (by push_cast; norm_num) (by push_cast; norm_num)
      (rneInt_eval_down _ _ (by push_cast; norm_num) (by push_cast; norm_num))]
    norm_num
  have hjit : jitterMs 100 29 = 28 := by
    unfold jitterMs
    rw [hb100, hx, hprod, hz,
      show ((8162774324609023 : Int) : ℚ) * 2 ^ (-48 : Int) =
        ((8162774324609023 : Int) : ℚ) / ((281474976710656 : Nat) : ℚ) by
          push_cast
          norm_num,
      Rat.floor_intCast_div_natCast]
    decide
  exact ⟨hjit, by decide⟩

/-- C3 counterexample: for target id "z" at attempt 2 with base 100 ms
the jitter bucket is 25, the code computes `100·2 + int(100·(25/100)) =
225` (the jitter is added unscaled), while the claimed law
`100·2^(2-1)·(1 + 0.01·25) = 250` — so the claim's formula does not
match `_compute_backoff_ms`.  At these inputs the float arithmetic is
exact (`25/100` is the dyadic `1/4`), so the jitter is exactly 25. -/
theorem C3_counterexample :
    computeBackoffMs 100 2 (some "z") = 225 ∧
      claimedBackoffMs 100 2 "z" = 250 ∧
      (computeBackoffMs 100 2 (some "z") : ℚ) ≠ claimedBackoffMs 100 2 "z" := by
  have hj : jitterBucket "z" 2 = 25 := by decide
  have hb100 : flq ((100 : Int) : ℚ) = ((100 : Int) : ℚ) :=
    flq_int_exact 100 (by norm_num) (by norm_num)
  have hx : flq (((25 : Nat) : ℚ) / 100) = 1 / 4 := by
    rw [show ((25 : Nat) : ℚ) / 100 = ((1 : Int) : ℚ) * 2 ^ (-2 : Int) by
        push_cast
        norm_num,
      flq_dyadic 1 (-2) (by norm_num) (by norm_num)]
    push_cast
    norm_num
  have hjit : jitterMs 100 25 = 25 := by
    unfold jitterMs
    rw [hb100, hx,
      show ((100 : Int) : ℚ) * (1 / 4) = ((25 : Int) : ℚ) by
        push_cast
        norm_num,
      flq_int_exact 25 (by norm_num) (by norm_num)]
    exact Int.floor_intCast 25
  have hcode : computeBackoffMs 100 2 (some "z") = 225 := by
    norm_num [computeBackoffMs, hj, hjit]
  have hclaim : claimedBackoffMs 100 2 "z" = 250 := by
    norm_num [claimedBackoffMs, hj]
  refine ⟨hcode, hclaim, ?_⟩
  rw [hcode, hclaim]
  norm_num

/-- C3 (amended): for 0 < base ≤ 2^53 and attempt k ≥ 1 the delay is
`base·2^(k-1)` plus a jitter term `int(base·(bucket/100))` evaluated in
binary64 float arithmetic on the base alone (not scaled by the
exponential factor), where bucket = hash(t+":"+k) mod 41; the jitter is
non-negative, at most 41% of the base, within one of the exact integer
value `base·bucket/100`, and the delay is monotonically non-decreasing
in k. -/
theorem C3_backoff_law (baseMs attempt : Int) (t : String)
    (hb : 0 < baseMs) (hb53 : baseMs ≤ 2 ^ 53) (hk : 1 ≤ attempt) :
    computeBackoffMs baseMs attempt (some t) =
      baseMs * 2 ^ (attempt - 1).toNat +
        jitterMs baseMs (jitterBucket t attempt) ∧
    0 ≤ jitterMs baseMs (jitterBucket t attempt) ∧
    100 * jitterMs baseMs (jitterBucket t attempt) ≤ 41 * baseMs ∧
    baseMs * (jitterBucket t attempt : Int) / 100 - 1 ≤
      jitterMs baseMs (jitterBucket t attempt) ∧
    jitterMs baseMs (jitterBucket t attempt) ≤
      baseMs * (jitterBucket t attempt : Int) / 100 + 1 ∧
    computeBackoffMs baseMs attempt (some t) ≤
      computeBackoffMs baseMs (attempt + 1) (some t) := by
  have hb' : ¬ baseMs ≤ 0 := not_le.mpr hb
  have hmax1 : max 0 (attempt - 1) = attempt - 1 := by omega
  have hmax2 : max 0 (attempt + 1 - 1) = attempt := by omega
  obtain ⟨h41, hlo, hhi⟩ := jitterMs_bounds baseMs (jitterBucket t attempt) hb
    hb53 (jitterBucket_le t attempt)
  have hnn := jitterMs_nonneg baseMs (jitterBucket t attempt)
  have hnn' := jitterMs_nonneg baseMs (jitterBucket t (attempt + 1))
  refine ⟨by simp [computeBackoffMs, hb', hmax1], hnn, h41, hlo, hhi, ?_⟩
  simp only [computeBackoffMs, if_neg hb', hmax1, hmax2]
  have hpow : attempt.toNat = (attempt - 1).toNat + 1 := by omega
  rw [hpow]
  have hx1 : (1 : Int) ≤ 2 ^ (attempt - 1).toNat := by
    have := pow_pos (show (0 : Int) < 2 by norm_num) (attempt - 1).toNat
    omega
  have hBa : baseMs ≤ baseMs * 2 ^ (attempt - 1).toNat :=
    le_mul_of_one_le_right hb.le hx1
  have hjle : jitterMs baseMs (jitterBucket t attempt) ≤ baseMs := by
    omega
  have h2 : baseMs * 2 ^ ((attempt - 1).toNat + 1) =
      baseMs * 2 ^ (attempt - 1).toNat + baseMs * 2 ^ (attempt - 1).toNat := by
    ring
  linarith

/-- C3 witness: the amended backoff law instantiated at base 100 ms,
attempt 2, target "z". -/
theorem C3_backoff_law_witness :
    (0 : Int) < 100 ∧ (100 : Int) ≤ 2 ^ 53 ∧ (1 : Int) ≤ 2 ∧
      (computeBackoffMs 100 2 (some "z") =
          100 * 2 ^ ((2 : Int) - 1).toNat +
            jitterMs 100 (jitterBucket "z" 2) ∧
        0 ≤ jitterMs 100 (jitterBucket "z" 2) ∧
        100 * jitterMs 100 (jitterBucket "z" 2) ≤ 41 * 100 ∧
        100 * (jitterBucket "z" 2 : Int) / 100 - 1 ≤
          jitterMs 100 (jitterBucket "z" 2) ∧
        jitterMs 100 (jitterBucket "z" 2) ≤
          100 * (jitterBucket "z" 2 : Int) / 100 + 1 ∧
        computeBackoffMs 100 2 (some "z") ≤ computeBackoffMs 100 3 (some "z")) :=
  ⟨by norm_num, by norm_num, by norm_num,
    C3_backoff_law 100 2 "z" (by norm_num) (by norm_num) (by norm_num)⟩

/-! ## Tool guardrail

Embedding of `ToolGuardrail` (`backend/tools/guardrail.py`) and of the
registry's `_apply_guardrail` pipeline (`backend/tools/registry.py`).
Estimated costs are rationals; a session's slice of the guardrail's
keyed dictionaries (`_session_stats`, `_disabled_sessions`,
`_triggered_sessions`) is a record, since every access is keyed by the
same `session_id`. -/

/-- Counters of `SessionGuardrailStats`. -/
structure GuardStats where
  totalCalls : Nat
  errorCalls : Nat
  estimatedCostUsd : ℚ
deriving Repr, DecidableEq

/-- The `error_rate` property: `0.0` when no calls were made. -/
def GuardStats.errorRate (s : GuardStats) : ℚ :=
  if s.totalCalls = 0 then 0 else (s.errorCalls : ℚ) / (s.totalCalls : ℚ)

/-- Python `str(status).lower() in ("error", "failed")`. -/
def isErrorStatus (status : String) : Bool :=
  pyLower status == "error" || pyLower status == "failed"

/-- `ToolGuardrail.record_invocation` for one session. -/
def recordInvocation (s : GuardStats) (status : String) (cost : ℚ) : GuardStats :=
  { totalCalls := s.totalCalls + 1
    errorCalls := s.errorCalls + (if isErrorStatus status then 1 else 0)
    estimatedCostUsd := s.estimatedCostUsd + cost }

/-- Stats after a sequence of recorded invocations (status, cost). -/
def statsOfTrace (tr : List (String × ℚ)) : GuardStats :=
  tr.foldl (fun s p => recordInvocation s p.1 p.2) ⟨0, 0, 0⟩

/-- Constructor arguments of `ToolGuardrail` (after the constructor's
`max(1, int(min_calls_for_error_rate))`, `min_calls_for_error_rate`
is at least 1). -/
structure GuardrailConfig where
  maxEstimatedCostUsd : ℚ
  maxErrorRate : ℚ
  minCallsForErrorRate : Nat

/-- The `cost_hit` test of `ToolGuardrail.evaluate`. -/
def guardrailCostHit (cfg : GuardrailConfig) (s : GuardStats) : Bool :=
  decide (cfg.maxEstimatedCostUsd < s.estimatedCostUsd)

/-- The `error_rate_hit` test of `ToolGuardrail.evaluate`. -/
def guardrailRateHit (cfg : GuardrailConfig) (s : GuardStats) : Bool :=
  decide (cfg.minCallsForErrorRate ≤ s.totalCalls) &&
    decide (cfg.maxErrorRate < s.errorRate)

/-- Whether `ToolGuardrail.evaluate` reports a trip. -/
def evaluateTriggered (cfg : GuardrailConfig) (s : GuardStats) : Bool :=
  guardrailCostHit cfg s || guardrailRateHit cfg s

/-- The reason string `ToolGuardrail.evaluate` reports on a trip. -/
def evaluateReason (cfg : GuardrailConfig) (s : GuardStats) : String :=
  if guardrailCostHit cfg s then "estimated_cost_exceeded"
  else "error_rate_exceeded"

theorem statsOfTrace_go (tr : List (String × ℚ)) (s : GuardStats) :
    (tr.foldl (fun s p => recordInvocation s p.1 p.2) s).totalCalls =
        s.totalCalls + tr.length ∧
      (tr.foldl (fun s p => recordInvocation s p.1 p.2) s).errorCalls =
        s.errorCalls + tr.countP (fun p => isErrorStatus p.1) ∧
      (tr.foldl (fun s p => recordInvocation s p.1 p.2) s).estimatedCostUsd =
        s.estimatedCostUsd + (tr.map Prod.snd).sum := by
  induction tr generalizing s with
  | nil => simp
  | cons p ps ih =>
    obtain ⟨h1, h2, h3⟩ := ih (recordInvocation s p.1 p.2)
    simp only [List.foldl_cons, List.length_cons, List.countP_cons,
      List.map_cons, List.sum_cons]
    refine ⟨?_, ?_, ?_⟩
    · rw [h1]
      simp [recordInvocation]
      omega
    · rw [h2]
      by_cases hp : isErrorStatus p.1 <;> (simp [recordInvocation, hp]; try omega)
    · rw [h3]
      simp [recordInvocation]
      ring

theorem statsOfTrace_spec (tr : List (String × ℚ)) :
    (statsOfTrace tr).totalCalls = tr.length ∧
      (statsOfTrace tr).errorCalls = tr.countP (fun p => isErrorStatus p.1) ∧
      (statsOfTrace tr).estimatedCostUsd = (tr.map Prod.snd).sum := by
  have h := statsOfTrace_go tr ⟨0, 0, 0⟩
  simpa [statsOfTrace] using h

/-- C5: after any sequence of recorded invocations the guardrail trips
iff cumulative cost strictly exceeds the ceiling, or the call count has
reached `min_calls_for_error_rate` and the error fraction strictly
exceeds the error-rate ceiling; when the cost condition holds the
reported reason is "estimated_cost_exceeded". -/
theorem C5_guardrail_trip (cfg : GuardrailConfig) (tr : List (String × ℚ))
    (hmin : 1 ≤ cfg.minCallsForErrorRate) :
    (evaluateTriggered cfg (statsOfTrace tr) = true ↔
      cfg.maxEstimatedCostUsd < (tr.map Prod.snd).sum ∨
        (cfg.minCallsForErrorRate ≤ tr.length ∧
          cfg.maxErrorRate <
            (tr.countP (fun p => isErrorStatus p.1) : ℚ) / (tr.length : ℚ))) ∧
    (cfg.maxEstimatedCostUsd < (tr.map Prod.snd).sum →
      evaluateReason cfg (statsOfTrace tr) = "estimated_cost_exceeded") := by
  obtain ⟨h1, h2, h3⟩ := statsOfTrace_spec tr
  constructor
  · simp only [evaluateTriggered, guardrailCostHit, guardrailRateHit,
      Bool.or_eq_true, Bool.and_eq_true, decide_eq_true_eq, h1, h2, h3]
    refine or_congr Iff.rfl (and_congr_right fun hlen => ?_)
    have hne : tr.length ≠ 0 := by omega
    unfold GuardStats.errorRate
    rw [h1, h2, if_neg hne]
  · intro hcost
    have : guardrailCostHit cfg (statsOfTrace tr) = true := by
      simp [guardrailCostHit, h3, hcost]
    simp [evaluateReason, this]

/-- C5 witness: with ceilings (cost 1, error-rate 1/2, min calls 2) a
single successful call of cost 3 trips the guardrail via the cost
condition. -/
theorem C5_guardrail_trip_witness :
    evaluateTriggered ⟨1, 1/2, 2⟩ (statsOfTrace [("completed", 3)]) = true :=
  (C5_guardrail_trip ⟨1, 1/2, 2⟩ [("completed", 3)] (by norm_num)).1.mpr
    (Or.inl (by norm_num))

/-! ## Guardrail session lifecycle

The registry's `_apply_guardrail` (`backend/tools/registry.py`) runs
`record_invocation`, then `evaluate` (which adds the session to
`_disabled_sessions` on a trip), then `mark_triggered` (which returns
`True` only the first time), and emits the `guardrail_triggered` event
only when both report a trip. -/

/-- One session's slice of the guardrail state: its stats, whether it
is in `_disabled_sessions`, whether it is in `_triggered_sessions`. -/
structure GuardSession where
  stats : GuardStats
  disabled : Bool
  triggered : Bool
deriving Repr, DecidableEq

/-- `ToolGuardrail.is_websearch_disabled` composed with
`ToolRegistry.should_enable_websearch`. -/
def shouldEnableWebsearch (gs : GuardSession) (requested : Bool) : Bool :=
  requested && !gs.disabled

/-- `ToolGuardrail.evaluate` with its side effect on
`_disabled_sessions`; returns the new state and whether it tripped. -/
def guardrailEvaluateStep (cfg : GuardrailConfig) (gs : GuardSession) :
    GuardSession × Bool :=
  if evaluateTriggered cfg gs.stats then ({ gs with disabled := true }, true)
  else (gs, false)

/-- `ToolGuardrail.mark_triggered`. -/
def markTriggered (gs : GuardSession) : GuardSession × Bool :=
  if gs.triggered then (gs, false) else ({ gs with triggered := true }, true)

/-- `ToolRegistry._apply_guardrail` for one finished invocation; the
returned Bool tells whether a `guardrail_triggered` event was emitted. -/
def applyGuardrail (cfg : GuardrailConfig) (gs : GuardSession)
    (status : String) (cost : ℚ) : GuardSession × Bool :=
  let gs1 : GuardSession := { gs with stats := recordInvocation gs.stats status cost }
  let ev := guardrailEvaluateStep cfg gs1
  if ev.2 then markTriggered ev.1 else (ev.1, false)

/-- Runs `_apply_guardrail` over a list of finished invocations,
counting emitted `guardrail_triggered` events. -/
def runGuardrail (cfg : GuardrailConfig) (gs : GuardSession) :
    List (String × ℚ) → GuardSession × Nat
  | [] => (gs, 0)
  | op :: ops =>
    let step := applyGuardrail cfg gs op.1 op.2
    let rest := runGuardrail cfg step.1 ops
    (rest.1, (if step.2 then 1 else 0) + rest.2)

theorem applyGuardrail_triggered (cfg : GuardrailConfig) (gs : GuardSession)
    (status : String) (cost : ℚ) :
    (applyGuardrail cfg gs status cost).1.triggered =
        (gs.triggered || (applyGuardrail cfg gs status cost).2) ∧
      ((applyGuardrail cfg gs status cost).2 = true → gs.triggered = false) := by
  unfold applyGuardrail guardrailEvaluateStep markTriggered
  by_cases hev : evaluateTriggered cfg
      (recordInvocation gs.stats status cost) = true <;>
    by_cases htr : gs.triggered <;>
      simp [hev, htr]

theorem applyGuardrail_disabled (cfg : GuardrailConfig) (gs : GuardSession)
    (status : String) (cost : ℚ) (h : gs.disabled = true) :
    (applyGuardrail cfg gs status cost).1.disabled = true := by
  unfold applyGuardrail guardrailEvaluateStep markTriggered
  by_cases hev : evaluateTriggered cfg
      (recordInvocation gs.stats status cost) = true <;>
    by_cases htr : gs.triggered <;>
      simp [hev, htr, h]

theorem runGuardrail_of_triggered (cfg : GuardrailConfig) (gs : GuardSession)
    (ops : List (String × ℚ)) (h : gs.triggered = true) :
    (runGuardrail cfg gs ops).2 = 0 := by
  induction ops generalizing gs with
  | nil => rfl
  | cons op ops ih =>
    obtain ⟨hmono, hemit⟩ := applyGuardrail_triggered cfg gs op.1 op.2
    have hstep : (applyGuardrail cfg gs op.1 op.2).2 = false := by
      cases hb : (applyGuardrail cfg gs op.1 op.2).2
      · rfl
      · exact absurd (hemit hb) (by simp [h])
    have hnext : (applyGuardrail cfg gs op.1 op.2).1.triggered = true := by
      rw [hmono, h]
      rfl
    simp [runGuardrail, hstep, ih _ hnext]

theorem runGuardrail_count_le_one (cfg : GuardrailConfig) (gs : GuardSession)
    (ops : List (String × ℚ)) (h : gs.triggered = false) :
    (runGuardrail cfg gs ops).2 ≤ 1 := by
  induction ops generalizing gs with
  | nil => simp [runGuardrail]
  | cons op ops ih =>
    obtain ⟨hmono, _⟩ := applyGuardrail_triggered cfg gs op.1 op.2
    cases hb : (applyGuardrail cfg gs op.1 op.2).2 with
    | false =>
      have hnext : (applyGuardrail cfg gs op.1 op.2).1.triggered = false := by
        rw [hmono, h, hb]
        rfl
      simp only [runGuardrail, hb]
      simpa using ih _ hnext
    | true =>
      have hnext : (applyGuardrail cfg gs op.1 op.2).1.triggered = true := by
        rw [hmono, hb]
        simp
      have := runGuardrail_of_triggered cfg
        (applyGuardrail cfg gs op.1 op.2).1 ops hnext
      simp [runGuardrail, hb, this]

theorem runGuardrail_disabled_mono (cfg : GuardrailConfig) (gs : GuardSession)
    (ops : List (String × ℚ)) (h : gs.disabled = true) :
    (runGuardrail cfg gs ops).1.disabled = true := by
  induction ops generalizing gs with
  | nil => exact h
  | cons op ops ih =>
    exact ih _ (applyGuardrail_disabled cfg gs op.1 op.2 h)

/-- C2: starting from a session not yet in `_triggered_sessions`, any
sequence of finished tool invocations emits `guardrail_triggered` at
most once; and once the session is flagged websearch-disabled, every
later `should_enable_websearch` query — after arbitrarily many further
invocations — returns `false`. -/
theorem C2_guardrail_idempotent (cfg : GuardrailConfig) (gs0 : GuardSession)
    (tr tr2 : List (String × ℚ)) (r : Bool)
    (hfresh : gs0.triggered = false) :
    (runGuardrail cfg gs0 tr).2 ≤ 1 ∧
      ((runGuardrail cfg gs0 tr).1.disabled = true →
        shouldEnableWebsearch
          (runGuardrail cfg (runGuardrail cfg gs0 tr).1 tr2).1 r = false) := by
  refine ⟨runGuardrail_count_le_one cfg gs0 tr hfresh, fun hdis => ?_⟩
  have := runGuardrail_disabled_mono cfg (runGuardrail cfg gs0 tr).1 tr2 hdis
  simp [shouldEnableWebsearch, this]

/-- C2 witness: a fresh session, one costly call that trips the
guardrail, then one more call; the event count stays ≤ 1 and websearch
stays off. -/
theorem C2_guardrail_idempotent_witness :
    (runGuardrail ⟨1, 1/2, 2⟩ ⟨⟨0, 0, 0⟩, false, false⟩ [("completed", 3)]).2 ≤ 1 ∧
      ((runGuardrail ⟨1, 1/2, 2⟩ ⟨⟨0, 0, 0⟩, false, false⟩
            [("completed", 3)]).1.disabled = true →
        shouldEnableWebsearch
          (runGuardrail ⟨1, 1/2, 2⟩
            (runGuardrail ⟨1, 1/2, 2⟩ ⟨⟨0, 0, 0⟩, false, false⟩
              [("completed", 3)]).1 [("completed", 0)]).1 true = false) :=
  C2_guardrail_idempotent ⟨1, 1/2, 2⟩ ⟨⟨0, 0, 0⟩, false, false⟩
    [("completed", 3)] [("completed", 0)] true rfl

/-! ## Adaptive concurrency throttle

Embedding of the process-wide adaptive state and of
`MarketInsightGraphEngine._record_ark_outcome`
(`backend/core/graph_engine.py`).  Timestamps are rationals. -/

def adaptiveDefaultLimit : Nat := 4
def adaptiveReducedLimit : Nat := 2
def adaptiveFailThreshold : Nat := 4
def adaptiveRecoverySuccessStreak : Nat := 6
def adaptiveReducedWindowSec : ℚ := 120

/-- The `_ADAPTIVE_*` process-global variables (inflight count left
out; `_record_ark_outcome` does not touch it). -/
structure AdaptiveState where
  concurrencyLimit : Nat
  connFailStreak : Nat
  successStreak : Nat
  recoverAfterTs : ℚ
deriving Repr, DecidableEq

/-- Embedding of `_record_ark_outcome`: the new state plus the
`changed_to` value (`some` when an `adaptive_concurrency` event is
emitted). -/
def recordArkOutcome (st : AdaptiveState) (success : Bool)
    (error : Option String) (nowTs : ℚ) : AdaptiveState × Option Nat :=
  if success then
    let st1 : AdaptiveState :=
      { st with connFailStreak := 0, successStreak := st.successStreak + 1 }
    if st1.concurrencyLimit = adaptiveReducedLimit ∧
        st.recoverAfterTs ≤ nowTs ∧
        adaptiveRecoverySuccessStreak ≤ st1.successStreak then
      ({ st1 with concurrencyLimit := adaptiveDefaultLimit, successStreak := 0 },
        some adaptiveDefaultLimit)
    else (st1, none)
  else
    let st1 : AdaptiveState := { st with successStreak := 0 }
    if isConnectionLikeError error then
      let st2 : AdaptiveState :=
        { st1 with connFailStreak := st1.connFailStreak + 1 }
      if st2.concurrencyLimit = adaptiveDefaultLimit ∧
          adaptiveFailThreshold ≤ st2.connFailStreak then
        ({ st2 with
            concurrencyLimit := adaptiveReducedLimit
            recoverAfterTs := nowTs + adaptiveReducedWindowSec },
          some adaptiveReducedLimit)
      else (st2, none)
    else ({ st1 with connFailStreak := 0 }, none)

/-- C9: the consecutive-connection-failure streak after recording an
outcome is `streak + 1` exactly when the outcome is a failure with a
connection-like message, and 0 otherwise — a non-connection-like
failure resets it just like a success does — and the throttle reduces
only when such a streak has reached the threshold. -/
theorem C9_conn_streak_reset (st : AdaptiveState) (success : Bool)
    (error : Option String) (nowTs : ℚ) :
    ((recordArkOutcome st success error nowTs).1.connFailStreak =
        if success = false ∧ isConnectionLikeError error = true then
          st.connFailStreak + 1
        else 0) ∧
      ((recordArkOutcome st success error nowTs).2 = some adaptiveReducedLimit →
        success = false ∧ isConnectionLikeError error = true ∧
          adaptiveFailThreshold ≤ st.connFailStreak + 1) := by
  unfold recordArkOutcome
  cases success <;> by_cases hc : isConnectionLikeError error = true <;>
    simp only [hc, if_true, if_false, Bool.false_eq_true, Bool.true_eq_false] <;>
    split_ifs <;>
    simp_all [adaptiveDefaultLimit, adaptiveReducedLimit, adaptiveFailThreshold]

/-- C9 witness: a failure with a non-connection-like message on a
running streak of 2 resets the streak to 0. -/
theorem C9_conn_streak_reset_witness :
    (recordArkOutcome ⟨4, 2, 0, 0⟩ false (some "invalid payload") 0).1.connFailStreak
      = 0 := by
  rw [(C9_conn_streak_reset ⟨4, 2, 0, 0⟩ false (some "invalid payload") 0).1]
  decide

/-! ## Session stability metrics

Embedding of `_build_demo_metrics` (`backend/routers/v2/market_insight.py`):
the agent-status buckets, workflow-event counters and the stability
score. -/

/-- One `workflow_events` row, reduced to the fields `_build_demo_metrics`
reads: the event type and, when its payload is a JSON object, the
payload's `mode` value (`str(payload.get("mode") or "")`). -/
structure WorkflowEventRow where
  eventType : String
  payloadMode : Option String
deriving Repr, DecidableEq

/-- Rows counted as failed agents (`status ∈ {"failed", "error"}`). -/
def failedAgentCount (statuses : List String) : Nat :=
  statuses.countP fun s => pyLower s == "failed" || pyLower s == "error"

/-- Rows counted as degraded agents (`status ∈ {"degraded", "skipped"}`). -/
def degradedAgentCount (statuses : List String) : Nat :=
  statuses.countP fun s => pyLower s == "degraded" || pyLower s == "skipped"

/-- Workflow-event rows with `event_type == "retry"`. -/
def retryEventCount (events : List WorkflowEventRow) : Nat :=
  events.countP fun e => pyLower e.eventType == "retry"

/-- Workflow-event rows with `event_type == "guardrail_triggered"`. -/
def guardrailEventCount (events : List WorkflowEventRow) : Nat :=
  events.countP fun e => pyLower e.eventType == "guardrail_triggered"

/-- Workflow-event rows with `event_type == "adaptive_concurrency"`
whose payload mode is "degraded". -/
def adaptiveDegradedCount (events : List WorkflowEventRow) : Nat :=
  events.countP fun e =>
    pyLower e.eventType == "adaptive_concurrency" &&
      (match e.payloadMode with
        | some m => pyLower m == "degraded"
        | none => false)

/-- The penalty accumulated by `_build_demo_metrics`. -/
def stabilityPenalty (statuses : List String) (events : List WorkflowEventRow)
    (toolErrorRate : ℚ) : ℚ :=
  30 * (failedAgentCount statuses : ℚ) + 12 * (degradedAgentCount statuses : ℚ) +
    15 * (guardrailEventCount events : ℚ) + 6 * (adaptiveDegradedCount events : ℚ) +
    min 20 ((retryEventCount events : ℚ) * 2) + min 25 (toolErrorRate * 25)

/-- `stability_score = max(0.0, min(100.0, 100.0 - penalty))`. -/
def stabilityScore (statuses : List String) (events : List WorkflowEventRow)
    (toolErrorRate : ℚ) : ℚ :=
  max 0 (min 100 (100 - stabilityPenalty statuses events toolErrorRate))

/-- C7: the stability score is the clamped penalty formula of the
claim, always lies in [0, 100], and equals 100 when there are no
failed or degraded agents, no guardrail trips, no adaptive degrades,
no retries and a zero tool error rate. -/
theorem C7_stability_score (statuses : List String)
    (events : List WorkflowEventRow) (toolErrorRate : ℚ) :
    stabilityScore statuses events toolErrorRate =
        max 0 (min 100 (100 -
          (30 * (failedAgentCount statuses : ℚ) +
            12 * (degradedAgentCount statuses : ℚ) +
            15 * (guardrailEventCount events : ℚ) +
            6 * (adaptiveDegradedCount events : ℚ) +
            min 20 (2 * (retryEventCount events : ℚ)) +
            min 25 (25 * toolErrorRate)))) ∧
      0 ≤ stabilityScore statuses events toolErrorRate ∧
      stabilityScore statuses events toolErrorRate ≤ 100 ∧
      (failedAgentCount statuses = 0 → degradedAgentCount statuses = 0 →
        guardrailEventCount events = 0 → adaptiveDegradedCount events = 0 →
        retryEventCount events = 0 → toolErrorRate = 0 →
        stabilityScore statuses events toolErrorRate = 100) := by
  refine ⟨?_, le_max_left 0 _, ?_, ?_⟩
  · unfold stabilityScore stabilityPenalty
    ring_nf
  · exact max_le (by norm_num) (min_le_left 100 _)
  · intro h1 h2 h3 h4 h5 h6
    unfold stabilityScore stabilityPenalty
    rw [h1, h2, h3, h4, h5, h6]
    norm_num

/-- C7 witness: one completed agent, no events, zero tool error rate
give a stability score of 100. -/
theorem C7_stability_score_witness :
    stabilityScore ["completed"] [] 0 = 100 :=
  (C7_stability_score ["completed"] [] 0).2.2.2 (by decide) (by decide)
    (by decide) (by decide) (by decide) rfl

/-! ## Memory snapshot action and risk items

Embedding of `_clip`, `_extract_markdown_items` and the
`action_items`/`risk_items` computation of `build_memory_snapshot`
(`backend/memory/session_snapshot.py`). -/

/-- Python `s.strip()` (whitespace on both ends). -/
def pyStrip (s : String) : String :=
  String.mk
    (((s.data.dropWhile Char.isWhitespace).reverse.dropWhile
      Char.isWhitespace).reverse)

/-- The `_clip` helper: strip, and shorten to `limit` characters with a
trailing ellipsis. -/
def clip (text : String) (limit : Nat) : String :=
  let raw := pyStrip text
  if raw.data.length ≤ limit then raw
  else String.mk (raw.data.take (limit - 1)) ++ "…"

/-- Python `str.splitlines()` restricted to the line breaks that can
occur here (`\n`, `\r\n`, `\r`); the final fragment is dropped when
empty, like in Python. -/
def splitLinesAux : List Char → List Char → List String
  | [], acc => if acc.isEmpty then [] else [String.mk acc.reverse]
  | '\r' :: '\n' :: rest, acc => String.mk acc.reverse :: splitLinesAux rest []
  | '\r' :: rest, acc => String.mk acc.reverse :: splitLinesAux rest []
  | '\n' :: rest, acc => String.mk acc.reverse :: splitLinesAux rest []
  | c :: rest, acc => splitLinesAux rest (c :: acc)

/-- Python `text.splitlines()`. -/
def splitLines (s : String) : List String :=
  splitLinesAux s.data []

/-- Consumes the list-marker alternative of the regex
`(?:[-*+]|\d+\.)`: one bullet character, or digits followed by a
dot. -/
def markerRest : List Char → Option (List Char)
  | '-' :: rest => some rest
  | '*' :: rest => some rest
  | '+' :: rest => some rest
  | c :: rest =>
    if c.isDigit then
      match rest.dropWhile Char.isDigit with
      | '.' :: rest2 => some rest2
      | _ => none
    else none
  | [] => none

/-- `re.match` of the pattern `^\s*(?:[-*+]|\d+\.)\s+(.+)$` against
`line.strip()`, returning the captured group: leading whitespace, a
list marker, at least one whitespace character, then the non-empty
remainder.  (On a Python-stripped line the remainder never consists of
whitespace alone, so the greedy `\s+` never needs to backtrack.) -/
def matchListItem (line : String) : Option String :=
  let cs := (pyStrip line).data.dropWhile Char.isWhitespace
  match markerRest cs with
  | none => none
  | some rest =>
    match rest with
    | c :: _ =>
      if c.isWhitespace then
        let body := rest.dropWhile Char.isWhitespace
        if body.isEmpty then none else some (String.mk body)
      else none
    | [] => none

/-- The value a matching line contributes: the captured group clipped
to 120 characters; lines whose clipped value is empty are skipped. -/
def itemValue (line : String) : Option String :=
  (matchListItem line).bind fun g =>
    let v := clip g 120
    if v = "" then none else some v

/-- The loop of `_extract_markdown_items`: append each line's value and
stop once `limit` items were collected (the check runs after the
append, so even `limit = 0` yields one item, like the source). -/
def extractItemsAux : List String → Nat → List String
  | [], _ => []
  | l :: ls, limit =>
    match itemValue l with
    | none => extractItemsAux ls limit
    | some v => if limit ≤ 1 then [v] else v :: extractItemsAux ls (limit - 1)

/-- `_extract_markdown_items(markdown_text, limit)`. -/
def extractMarkdownItems (text : String) (limit : Nat) : List String :=
  if text = "" then [] else extractItemsAux (splitLines text) limit

/-- The risk keyword tuple of `build_memory_snapshot` — note that it
contains "风险" in addition to the five keywords the claim lists, and
that it is matched against `item.lower()`. -/
def riskKeywords : List String :=
  ["风险", "risk", "合规", "限制", "约束", "挑战"]

/-- The risk keyword set as the claim states it (without "风险"). -/
def claimedRiskKeywords : List String :=
  ["risk", "合规", "限制", "约束", "挑战"]

/-- `action_items = _extract_markdown_items(final_report, limit=6)`. -/
def snapshotActionItems (finalReport : String) : List String :=
  extractMarkdownItems finalReport 6

/-- `risk_items`: the action items whose lowercased text contains one
of the risk keywords, capped at 4. -/
def snapshotRiskItems (finalReport : String) : List String :=
  ((snapshotActionItems finalReport).filter fun item =>
    riskKeywords.any fun k => strContains (pyLower item) k).take 4

/-- The risk items as the claim describes them: the subset of the
action items containing one of the claim's five keywords, capped at
4. -/
def claimedRiskItems (finalReport : String) : List String :=
  ((snapshotActionItems finalReport).filter fun item =>
    claimedRiskKeywords.any fun k => strContains item k).take 4

example : splitLines "a\nb" = ["a", "b"] := by decide
example : matchListItem "- hello" = some "hello" := by decide
example : matchListItem "12. hello" = some "hello" := by decide
example : matchListItem "12 hello" = none := by decide

/-- C8 counterexample: for the report "- 风险评估" the single action
item "风险评估" contains none of the claim's five risk keywords, yet
the code places it in `risk_items` — the source's keyword tuple also
contains "风险". -/
theorem C8_counterexample :
    snapshotActionItems "- 风险评估" = ["风险评估"] ∧
      snapshotRiskItems "- 风险评估" = ["风险评估"] ∧
      claimedRiskItems "- 风险评估" = [] := by
  decide

theorem extractItemsAux_eq_take (ls : List String) (limit : Nat)
    (h : 1 ≤ limit) :
    extractItemsAux ls limit = (ls.filterMap itemValue).take limit := by
  induction ls generalizing limit with
  | nil => simp [extractItemsAux]
  | cons l ls ih =>
    cases hv : itemValue l with
    | none => simp [extractItemsAux, hv, List.filterMap_cons, ih limit h]
    | some v =>
      by_cases hl : limit ≤ 1
      · have : limit = 1 := by omega
        subst this
        simp [extractItemsAux, hv, List.filterMap_cons]
      · have h1 : 1 ≤ limit - 1 := by omega
        have h2 : limit - 1 + 1 = limit := by omega
        simp only [extractItemsAux, hv, if_neg hl, List.filterMap_cons]
        rw [ih (limit - 1) h1, ← h2, List.take_succ_cons]
        simp

/-- C8 (amended): the action items are the values of the first at most
6 report lines matching the list-marker regex (each value clipped to
120 characters), and the risk items are exactly the action items whose
lowercased text contains one of the six substrings "风险", "risk",
"合规", "限制", "约束", "挑战", capped at 4. -/
theorem C8_snapshot_items (report : String) :
    snapshotActionItems report =
        ((splitLines report).filterMap itemValue).take 6 ∧
      snapshotRiskItems report =
        ((snapshotActionItems report).filter fun item =>
          decide (∃ k ∈ riskKeywords, k.data <:+: (pyLower item).data)).take 4 := by
  constructor
  · by_cases hr : report = ""
    · subst hr
      decide
    · simp only [snapshotActionItems, extractMarkdownItems, if_neg hr]
      exact extractItemsAux_eq_take _ 6 (by norm_num)
  · unfold snapshotRiskItems
    congr 1
    refine List.filter_congr fun item _ => ?_
    by_cases hx : ∃ k ∈ riskKeywords, k.data <:+: (pyLower item).data
    · rw [decide_eq_true hx, List.any_eq_true]
      obtain ⟨k, hk, hinf⟩ := hx
      exact ⟨k, hk, (strContains_iff _ _).mpr hinf⟩
    · rw [decide_eq_false hx, Bool.eq_false_iff]
      intro hany
      rw [List.any_eq_true] at hany
      obtain ⟨k, hk, hc⟩ := hany
      exact hx ⟨k, hk, (strContains_iff _ _).mp hc⟩

/-! ## Source URL normalization and tool_end source lists

Embedding of `_add_source` in `create_response_stream_v2`
(`backend/core/ark_client.py`) and of `ToolRegistry._extract_sources`
and the `sources`/`sources_count` fields of
`ToolRegistry.end_invocation` (`backend/tools/registry.py`). -/

/-- The punctuation class of `value.rstrip(".,;:)]}>\"'")`. -/
def rstripSet : List Char :=
  ['.', ',', ';', ':', ')', ']', '}', '>', '"', '\'']

/-- Python `s.rstrip(chars)`. -/
def pyRstrip (s : String) (set : List Char) : String :=
  String.mk (s.data.reverse.dropWhile (fun c => set.contains c)).reverse

/-- The normalization performed by `_add_source` before the dedup
check: strip, prefix `www.` hosts with `https://`, strip trailing
punctuation, and reject values not starting with `http(s)://`. -/
def normalizeSource (raw : String) : Option String :=
  let v0 := pyStrip raw
  if v0 = "" then none
  else
    let v1 := if strLeadsWith v0 "www." then "https://" ++ v0 else v0
    let v2 := pyRstrip v1 rstripSet
    if strLeadsWith v2 "http://" || strLeadsWith v2 "https://" then some v2
    else none

/-- The facade's accumulated `sources` list: each raw candidate is
normalized and appended unless already seen. -/
def arkSources (raws : List String) : List String :=
  raws.foldl
    (fun acc r =>
      match normalizeSource r with
      | none => acc
      | some v => if v ∈ acc then acc else acc ++ [v])
    []

/-- An entry of the metadata's `sources` value: a string or something
of another type (skipped by `_extract_sources`). -/
inductive MetaItem where
  | str (s : String)
  | other
deriving Repr, DecidableEq

/-- The metadata dict handed to `end_invocation`, reduced to the keys
it reads: `sources` (when it is a list) and `sources_count`. -/
structure ToolMeta where
  sources : Option (List MetaItem)
  sourcesCount : Option Int
deriving Repr, DecidableEq

/-- `ToolRegistry._extract_sources`: keep the string entries, dropping
duplicates, in first-seen order. -/
def extractSources (m : Option ToolMeta) : List String :=
  match m with
  | none => []
  | some mm =>
    match mm.sources with
    | none => []
    | some items =>
      items.foldl
        (fun acc i =>
          match i with
          | MetaItem.str s => if s ∈ acc then acc else acc ++ [s]
          | MetaItem.other => acc)
        []

/-- The `sources_count` field of the `tool_end` payload:
`int((metadata or {}).get("sources_count") or len(sources))` — a falsy
(absent or zero) metadata count falls back to the extracted list's
length, anything else is trusted as-is. -/
def toolEndSourcesCount (m : Option ToolMeta) (sources : List String) : Int :=
  match m with
  | none => (sources.length : Int)
  | some mm =>
    match mm.sourcesCount with
    | none => (sources.length : Int)
    | some n => if n = 0 then (sources.length : Int) else n

/-- C6 counterexample: `end_invocation` builds its `tool_end` payload
from untrusted metadata — for metadata with `sources=["not-a-url"]`
and `sources_count=5` the emitted list has one entry that is not an
`http(s)://` URL while `sources_count` is 5. -/
theorem C6_counterexample :
    extractSources (some ⟨some [MetaItem.str "not-a-url"], some 5⟩) =
        ["not-a-url"] ∧
      toolEndSourcesCount (some ⟨some [MetaItem.str "not-a-url"], some 5⟩)
        (extractSources (some ⟨some [MetaItem.str "not-a-url"], some 5⟩)) = 5 ∧
      strLeadsWith "not-a-url" "http://" = false ∧
      strLeadsWith "not-a-url" "https://" = false := by
  decide

theorem normalizeSource_http (raw v : String)
    (h : normalizeSource raw = some v) :
    strLeadsWith v "http://" = true ∨ strLeadsWith v "https://" = true := by
  by_cases h1 : pyStrip raw = ""
  · simp [normalizeSource, h1] at h
  · have hdef : normalizeSource raw =
        (if strLeadsWith
              (pyRstrip
                (if strLeadsWith (pyStrip raw) "www." then
                  "https://" ++ pyStrip raw
                else pyStrip raw) rstripSet) "http://" ||
            strLeadsWith
              (pyRstrip
                (if strLeadsWith (pyStrip raw) "www." then
                  "https://" ++ pyStrip raw
                else pyStrip raw) rstripSet) "https://" then
          some (pyRstrip
            (if strLeadsWith (pyStrip raw) "www." then
              "https://" ++ pyStrip raw
            else pyStrip raw) rstripSet)
        else none) := by
      simp only [normalizeSource, if_neg h1]
    rw [hdef] at h
    by_cases h2 : (strLeadsWith
          (pyRstrip
            (if strLeadsWith (pyStrip raw) "www." then
              "https://" ++ pyStrip raw
            else pyStrip raw) rstripSet) "http://" ||
        strLeadsWith
          (pyRstrip
            (if strLeadsWith (pyStrip raw) "www." then
              "https://" ++ pyStrip raw
            else pyStrip raw) rstripSet) "https://") = true
    · rw [if_pos h2] at h
      injection h with h
      subst h
      exact (Bool.or_eq_true _ _) ▸ h2
    · rw [if_neg h2] at h
      cases h

theorem dedupFold_of_nodup (l acc : List String) (h : (acc ++ l).Nodup) :
    l.foldl (fun acc s => if s ∈ acc then acc else acc ++ [s]) acc = acc ++ l := by
  induction l generalizing acc with
  | nil => simp
  | cons s ls ih =>
    have hs : s ∉ acc := by
      rw [List.nodup_append] at h
      exact fun hmem => h.2.2 hmem (by simp)
    have hassoc : acc ++ s :: ls = (acc ++ [s]) ++ ls := by simp
    rw [hassoc] at h
    simp only [List.foldl_cons, if_neg hs]
    rw [ih (acc ++ [s]) h]
    simp

theorem extract_map_str (l : List String) (acc : List String) :
    (l.map MetaItem.str).foldl
        (fun acc i =>
          match i with
          | MetaItem.str s => if s ∈ acc then acc else acc ++ [s]
          | MetaItem.other => acc)
        acc =
      l.foldl (fun acc s => if s ∈ acc then acc else acc ++ [s]) acc := by
  induction l generalizing acc with
  | nil => rfl
  | cons s ls ih => simp [ih]

theorem arkSources_go (raws : List String) (acc : List String)
    (hnd : acc.Nodup)
    (hp : ∀ s ∈ acc,
      strLeadsWith s "http://" = true ∨ strLeadsWith s "https://" = true) :
    (raws.foldl
        (fun acc r =>
          match normalizeSource r with
          | none => acc
          | some v => if v ∈ acc then acc else acc ++ [v])
        acc).Nodup ∧
      ∀ s ∈ raws.foldl
          (fun acc r =>
            match normalizeSource r with
            | none => acc
            | some v => if v ∈ acc then acc else acc ++ [v])
          acc,
        strLeadsWith s "http://" = true ∨ strLeadsWith s "https://" = true := by
  induction raws generalizing acc with
  | nil => exact ⟨hnd, hp⟩
  | cons r rs ih =>
    simp only [List.foldl_cons]
    cases hv : normalizeSource r with
    | none => exact ih acc hnd hp
    | some v =>
      by_cases hmem : v ∈ acc
      · simp only [if_pos hmem]
        exact ih acc hnd hp
      · simp only [if_neg hmem]
        refine ih (acc ++ [v]) ?_ ?_
        · rw [← List.concat_eq_append]
          exact hnd.concat hmem
        · intro s hs
          rcases List.mem_append.mp hs with hs | hs
          · exact hp s hs
          · have : s = v := by simpa using hs
            subst this
            exact normalizeSource_http r s hv

/-- C6 (amended): the `tool_end` source-list invariant holds for the
metadata shapes the LLM facade actually produces — for any raw
candidate list, the facade's normalized `sources` plus
`sources_count = len(sources)` yield a `tool_end` whose list has no
duplicates, whose `sources_count` equals its length, and whose entries
all start with `http://` or `https://`; for arbitrary metadata the
registry only dedups and trusts `sources_count` (see the
counterexample). -/
theorem C6_tool_end_sources (raws : List String) :
    extractSources (some ⟨some ((arkSources raws).map MetaItem.str),
        some ((arkSources raws).length : Int)⟩) = arkSources raws ∧
      toolEndSourcesCount (some ⟨some ((arkSources raws).map MetaItem.str),
          some ((arkSources raws).length : Int)⟩) (arkSources raws) =
        ((arkSources raws).length : Int) ∧
      (arkSources raws).Nodup ∧
      ∀ s ∈ arkSources raws,
        strLeadsWith s "http://" = true ∨ strLeadsWith s "https://" = true := by
  obtain ⟨hnd, hp⟩ := arkSources_go raws [] (by simp) (by simp)
  have hnd' : (arkSources raws).Nodup := hnd
  refine ⟨?_, ?_, hnd', hp⟩
  · show ((arkSources raws).map MetaItem.str).foldl _ [] = arkSources raws
    rw [extract_map_str]
    simpa using dedupFold_of_nodup (arkSources raws) [] (by simpa using hnd')
  · unfold toolEndSourcesCount
    by_cases h0 : ((arkSources raws).length : Int) = 0
    · simp [h0]
    · simp [h0]

/-! ## Initial state preparation

Embedding of `_prepare_initial_state`, `_normalize_debate_rounds` and
`_resolve_degrade_mode` (`backend/core/graph_engine.py`).  Request
values are modelled by a small Python-value type; `int(x)` is modelled
by `pyIntOf`, which is `none` exactly when Python's `int()` raises
(non-numeric strings, `None`). -/

/-- A request value as `_prepare_initial_state` may receive it. -/
inductive PyVal where
  | pInt (n : Int)
  | pBool (b : Bool)
  | pStr (s : String)
  | pNone
deriving Repr, DecidableEq

/-- Value of a non-empty all-digit character list. -/
def digitsVal (cs : List Char) : Option Nat :=
  if cs.isEmpty then none
  else if cs.all Char.isDigit then
    some (cs.foldl (fun a c => a * 10 + (c.toNat - 48)) 0)
  else none

/-- Python `int(s)` on strings: optional surrounding whitespace, an
optional sign, then digits. -/
def parseIntStr (s : String) : Option Int :=
  match (pyStrip s).data with
  | '+' :: rest => (digitsVal rest).map fun n => (n : Int)
  | '-' :: rest => (digitsVal rest).map fun n => -(n : Int)
  | cs => (digitsVal cs).map fun n => (n : Int)

/-- Python `int(x)`: `none` when `int()` raises. -/
def pyIntOf : PyVal → Option Int
  | .pInt n => some n
  | .pBool b => some (if b then 1 else 0)
  | .pStr s => parseIntStr s
  | .pNone => none

/-- The clamp performed by `_normalize_debate_rounds` once an integer
was obtained: negatives to 0, values above 2 to 2. -/
def normalizeDebateRounds (r : Int) : Int :=
  min (if r < 0 then 0 else r) 2

/-- `_normalize_debate_rounds(value)`: coerce with `int()`, falling
back to the engine default when that raises, then clamp. -/
def normalizeDebateRoundsVal (engineDefault : Int) (v : PyVal) : Int :=
  normalizeDebateRounds ((pyIntOf v).getD engineDefault)

/-- `_resolve_degrade_mode(value)`. -/
def resolveDegradeMode (v : PyVal) : String :=
  match v with
  | .pStr s => if s = "skip" ∨ s = "partial" ∨ s = "fail" then s else "partial"
  | _ => "partial"

/-- The engine constructor values consulted as defaults (already ints
and a degrade-mode string by construction). -/
structure EngineDefaults where
  debateRounds : Int
  retryMaxAttempts : Int
  retryBackoffMs : Int
  degradeMode : String
deriving Repr, DecidableEq

/-- The knob entries of the `initial_state` dict (`none` = key
absent). -/
structure InitialStateReq where
  debateRounds : Option PyVal
  retryMaxAttempts : Option PyVal
  retryBackoffMs : Option PyVal
  degradeMode : Option PyVal
deriving Repr, DecidableEq

/-- The knob fields of the prepared `MarketInsightState`. -/
structure PreparedState where
  debateRounds : Int
  retryMaxAttempts : Int
  retryBackoffMs : Int
  degradeMode : String
deriving Repr, DecidableEq

/-- Embedding of `_prepare_initial_state` on the knob fields: `none`
models the `ValueError`/`TypeError` escaping from the bare
`int(initial_state.get(...))` calls for the retry knobs (only the
debate-rounds coercion is wrapped in `try`). -/
def prepareInitialState (d : EngineDefaults) (req : InitialStateReq) :
    Option PreparedState :=
  let rounds :=
    normalizeDebateRoundsVal d.debateRounds
      (req.debateRounds.getD (.pInt d.debateRounds))
  match pyIntOf (req.retryMaxAttempts.getD (.pInt d.retryMaxAttempts)) with
  | none => none
  | some rma =>
    match pyIntOf (req.retryBackoffMs.getD (.pInt d.retryBackoffMs)) with
    | none => none
    | some rbm =>
      some
        { debateRounds := rounds
          retryMaxAttempts := max 1 rma
          retryBackoffMs := max 0 rbm
          degradeMode := resolveDegradeMode (req.degradeMode.getD (.pStr d.degradeMode)) }

/-- C10 counterexample: `_prepare_initial_state` is not total — a
non-numeric `retry_max_attempts` string makes the bare `int()` call
raise, while the same value in `debate_rounds` is caught and falls
back to the default. -/
theorem C10_counterexample :
    prepareInitialState ⟨2, 2, 300, "partial"⟩
        ⟨none, some (.pStr "abc"), none, none⟩ = none ∧
      prepareInitialState ⟨2, 2, 300, "partial"⟩
        ⟨some (.pStr "abc"), none, none, none⟩ =
          some ⟨2, 2, 300, "partial"⟩ := by
  decide

theorem normalizeDebateRounds_range (r : Int) :
    0 ≤ normalizeDebateRounds r ∧ normalizeDebateRounds r ≤ 2 := by
  unfold normalizeDebateRounds
  by_cases hr : r < 0 <;> (simp [hr]; try omega)

theorem resolveDegradeMode_mem (v : PyVal) :
    resolveDegradeMode v = "skip" ∨ resolveDegradeMode v = "partial" ∨
      resolveDegradeMode v = "fail" := by
  cases v with
  | pStr s =>
    simp only [resolveDegradeMode]
    split_ifs with h
    · exact h
    · right
      left
      rfl
  | pInt n => right; left; rfl
  | pBool b => right; left; rfl
  | pNone => right; left; rfl

/-- C10 (amended): whenever `_prepare_initial_state` returns (it
raises on retry-knob values that `int()` rejects, so it is not total),
every knob is in range: debate rounds in [0, 2] — with unparsable
values falling back to the engine default and out-of-range integers
clamped — `retry_max_attempts ≥ 1`, `retry_backoff_ms ≥ 0`, and
`degrade_mode` one of skip/partial/fail (anything else becomes
partial). -/
theorem C10_prepare_ranges (d : EngineDefaults) (req : InitialStateReq)
    (st : PreparedState) (h : prepareInitialState d req = some st) :
    (0 ≤ st.debateRounds ∧ st.debateRounds ≤ 2) ∧
      1 ≤ st.retryMaxAttempts ∧ 0 ≤ st.retryBackoffMs ∧
      (st.degradeMode = "skip" ∨ st.degradeMode = "partial" ∨
        st.degradeMode = "fail") ∧
      (∀ v, pyIntOf v = none →
        normalizeDebateRoundsVal d.debateRounds v =
          normalizeDebateRounds d.debateRounds) ∧
      (∀ v n, pyIntOf v = some n →
        normalizeDebateRoundsVal d.debateRounds v = normalizeDebateRounds n) := by
  unfold prepareInitialState at h
  cases h1 : pyIntOf (req.retryMaxAttempts.getD (.pInt d.retryMaxAttempts)) with
  | none => rw [h1] at h; cases h
  | some rma =>
    rw [h1] at h
    cases h2 : pyIntOf (req.retryBackoffMs.getD (.pInt d.retryBackoffMs)) with
    | none => rw [h2] at h; cases h
    | some rbm =>
      rw [h2] at h
      injection h with h
      subst h
      refine ⟨normalizeDebateRounds_range _, le_max_left 1 _, le_max_left 0 _,
        resolveDegradeMode_mem _, ?_, ?_⟩
      · intro v hv
        simp [normalizeDebateRoundsVal, hv]
      · intro v n hv
        simp [normalizeDebateRoundsVal, hv]

/-- C10 witness: the amended range theorem at the engine defaults with
an empty request. -/
theorem C10_prepare_ranges_witness :
    (0 ≤ (2 : Int) ∧ (2 : Int) ≤ 2) ∧
      1 ≤ (2 : Int) ∧ (0 : Int) ≤ 300 ∧
      ((("partial" : String) = "skip") ∨ (("partial" : String) = "partial") ∨
        (("partial" : String) = "fail")) ∧
      (∀ v, pyIntOf v = none →
        normalizeDebateRoundsVal 2 v = normalizeDebateRounds 2) ∧
      (∀ v n, pyIntOf v = some n →
        normalizeDebateRoundsVal 2 v = normalizeDebateRounds n) :=
  C10_prepare_ranges ⟨2, 2, 300, "partial"⟩ ⟨none, none, none, none⟩
    ⟨2, 2, 300, "partial"⟩ (by decide)

/-! ## Workflow session model

Embedding of the graph's session shape (`backend/core/graph_engine.py`):
orchestrator → four parallel worker nodes → gather → peer debate round
(if rounds ≥ 1) → red-team round (if rounds = 2) → synthesizer.  The
outcomes of the underlying LLM calls are scenario parameters: a
worker's retry loop either eventually succeeds with some content or
exhausts all attempts with an error, and likewise for a debate
exchange (whose three calls form one retry unit) and the synthesizer.
Event emission, timing and report text are not modelled; the claims
below concern `agent_results` and `debate_exchanges` of completed
sessions. -/

/-- `WORKER_AGENTS`. -/
def workerAgents : List String :=
  ["trend_scout", "competitor_analyst", "regulation_checker", "social_sentinel"]

/-- `DEBATE_PEER_PAIRS` (`backend/core/config.py`). -/
def debatePeerPairs : List (String × String) :=
  [("trend_scout", "competitor_analyst"),
   ("regulation_checker", "social_sentinel")]

/-- `AGENT_DEBATE_CHALLENGER`. -/
def agentDebateChallenger : String := "debate_challenger"

/-- `DEBATE_REDTEAM_TARGETS`. -/
def debateRedteamTargets : List String := workerAgents

/-- The bidirectional exchange order of `_debate_peer_node`: for each
pair (a, b), first a challenges b, then b challenges a. -/
def peerExchangeSeq : List (String × String) :=
  (debatePeerPairs.map fun p => [(p.1, p.2), (p.2, p.1)]).flatten

/-- The exchange order of `_debate_redteam_node`: the challenger agent
challenges each worker. -/
def redteamExchangeSeq : List (String × String) :=
  debateRedteamTargets.map fun t => (agentDebateChallenger, t)

/-- An `AgentResult`, reduced to the fields the claims read. -/
structure AgentResultM where
  agentName : String
  content : String
  error : Option String
deriving Repr, DecidableEq

/-- A `DebateExchange`. -/
structure DebateExchangeM where
  roundNumber : Nat
  debateType : String
  challenger : String
  responder : String
  challengeContent : String
  responseContent : String
  followupContent : Option String
  revised : Bool
deriving Repr, DecidableEq

/-- A session scenario: the workflow knobs plus the outcome of each
LLM-backed unit (`Except.error` = the unit fails on every retry
attempt; `Except.ok` = its eventually-successful payload). -/
structure RunScenario where
  debateRounds : Int
  degradeMode : String
  hasFactory : Bool
  enableFollowup : Bool
  targetMarket : String
  supplyChain : String
  workerRun : String → Except String String
  exchangeRun : Nat → String → String → Except String (String × String × String)
  synthRun : Except String String

/-- The simulated worker output used when no agent factory is
configured. -/
def simulatedContent (sc : RunScenario) (name : String) : String :=
  "[" ++ name ++ "] 模拟输出 - 市场: " ++ sc.targetMarket ++ " / 品类: " ++
    sc.supplyChain

/-- One worker node (`agent_node` in `_create_agent_node`): success
appends one completed result; on retry exhaustion the degrade mode
decides between re-raising (`fail`), contributing nothing (`skip`) and
a partial result with empty content (`partial`). -/
def agentNodeRun (sc : RunScenario) (name : String) :
    Except String (Option AgentResultM) :=
  if sc.hasFactory then
    match sc.workerRun name with
    | .ok content => .ok (some ⟨name, content, none⟩)
    | .error e =>
      if resolveDegradeMode (.pStr sc.degradeMode) = "fail" then .error e
      else if resolveDegradeMode (.pStr sc.degradeMode) = "skip" then .ok none
      else .ok (some ⟨name, "", some e⟩)
  else .ok (some ⟨name, simulatedContent sc name, none⟩)

/-- The fan-out barrier: run the workers and append their
contributions to `agent_results` (a `fail` degrade aborts the whole
session). -/
def runWorkersAux (sc : RunScenario) :
    List String → Except String (List AgentResultM)
  | [] => .ok []
  | n :: ns =>
    match agentNodeRun sc n with
    | .error e => .error e
    | .ok r =>
      match runWorkersAux sc ns with
      | .error e => .error e
      | .ok rest => .ok (r.toList ++ rest)

/-- `results_map.get(responder)` (worker names are pairwise distinct,
so first-match lookup agrees with the Python dict). -/
def findResult (results : List AgentResultM) (name : String) :
    Option AgentResultM :=
  results.find? fun r => r.agentName == name

/-- `revised = "修订" in response or "修改" in response`. -/
def revisedFlag (response : String) : Bool :=
  strContains response "修订" || strContains response "修改"

/-- `_execute_debate_exchange`: placeholder without a factory; `None`
when the responder has no recorded result or empty content; otherwise
the three-call unit either succeeds or, on retry exhaustion, the
degrade mode decides between aborting, a synthetic degraded exchange
and dropping the exchange. -/
def execDebateExchange (sc : RunScenario) (results : List AgentResultM)
    (roundNumber : Nat) (dtype : String) (ch rsp : String) :
    Except String (Option DebateExchangeM) :=
  if sc.hasFactory then
    match findResult results rsp with
    | none => .ok none
    | some r =>
      if r.content = "" then .ok none
      else
        match sc.exchangeRun roundNumber ch rsp with
        | .ok t =>
          .ok (some ⟨roundNumber, dtype, ch, rsp, t.1, t.2.1,
            if sc.enableFollowup then some t.2.2 else none, revisedFlag t.2.1⟩)
        | .error e =>
          if resolveDegradeMode (.pStr sc.degradeMode) = "fail" then .error e
          else if resolveDegradeMode (.pStr sc.degradeMode) = "partial" then
            .ok (some ⟨roundNumber, dtype, ch, rsp, "", "",
              some ("[降级] 辩论交换失败: " ++ e), false⟩)
          else .ok none
  else
    .ok (some ⟨roundNumber, dtype, ch, rsp,
      "[" ++ ch ++ "] 质疑占位内容", "[" ++ rsp ++ "] 回应占位内容",
      if sc.enableFollowup then some ("[" ++ ch ++ "] 确认占位") else none,
      false⟩)

/-- One debate round: the exchanges that returned a record, in order. -/
def runExchanges (sc : RunScenario) (results : List AgentResultM)
    (roundNumber : Nat) (dtype : String) :
    List (String × String) → Except String (List DebateExchangeM)
  | [] => .ok []
  | p :: ps =>
    match execDebateExchange sc results roundNumber dtype p.1 p.2 with
    | .error e => .error e
    | .ok ex =>
      match runExchanges sc results roundNumber dtype ps with
      | .error e => .error e
      | .ok exs => .ok (ex.toList ++ exs)

/-- The final `agent_results` and `debate_exchanges` of a completed
session. -/
structure FinalStateM where
  agentResults : List AgentResultM
  debateExchanges : List DebateExchangeM
deriving Repr, DecidableEq

/-- A whole session: `none` when the graph aborts with an error event
(degrade mode `fail`), `some` the accumulated state of a session that
reaches the `complete` phase. -/
def runSession (sc : RunScenario) : Option FinalStateM :=
  match runWorkersAux sc workerAgents with
  | .error _ => none
  | .ok results =>
    let rounds := normalizeDebateRounds sc.debateRounds
    match (if 1 ≤ rounds then
        runExchanges sc results 1 "peer_review" peerExchangeSeq
      else .ok []) with
    | .error _ => none
    | .ok peerExs =>
      match (if 2 ≤ rounds then
          runExchanges sc results 2 "red_team" redteamExchangeSeq
        else .ok []) with
      | .error _ => none
      | .ok redExs =>
        let results' := results
        let hasContent := results'.any fun r => !(r.content == "")
        if sc.hasFactory && hasContent then
          match sc.synthRun with
          | .ok _ => some ⟨results', peerExs ++ redExs⟩
          | .error _ =>
            if resolveDegradeMode (.pStr sc.degradeMode) = "fail" then none
            else some ⟨results', peerExs ++ redExs⟩
        else some ⟨results', peerExs ++ redExs⟩

/-- A scenario in which one worker fails with degrade mode `partial`
while everything else succeeds, with one peer round. -/
def cexScenario : RunScenario :=
  { debateRounds := 1
    degradeMode := "partial"
    hasFactory := true
    enableFollowup := false
    targetMarket := "Germany"
    supplyChain := "Electronics"
    workerRun := fun n =>
      if n = "trend_scout" then .error "boom" else .ok ("content-" ++ n)
    exchangeRun := fun _ _ _ => .ok ("challenge", "response", "followup")
    synthRun := .ok "report" }

/-- C1 counterexample: the `cexScenario` session completes (degrade
mode `partial` contributes an empty-content result for the failed
worker), with `debate_rounds = 1`, yet only 3 debate exchanges are
recorded — `_execute_debate_exchange` drops the exchange whose
responder has empty content — contradicting "exactly 4 when
debate_rounds = 1". -/
theorem C1_counterexample :
    (runSession cexScenario).map
        (fun st => (st.agentResults.length, st.debateExchanges.length)) =
      some (4, 3) ∧
      normalizeDebateRounds cexScenario.debateRounds = 1 := by
  decide

theorem runWorkersAux_length_le (sc : RunScenario) (ns : List String)
    (rs : List AgentResultM) (h : runWorkersAux sc ns = .ok rs) :
    rs.length ≤ ns.length := by
  induction ns generalizing rs with
  | nil =>
    simp only [runWorkersAux] at h
    injection h with h
    subst h
    simp
  | cons n ns ih =>
    simp only [runWorkersAux] at h
    cases ha : agentNodeRun sc n with
    | error e => simp [ha] at h
    | ok r =>
      cases hrest : runWorkersAux sc ns with
      | error e => simp [ha, hrest] at h
      | ok rest =>
        simp only [ha, hrest] at h
        injection h with h
        subst h
        have h1 := ih rest hrest
        have h2 : r.toList.length ≤ 1 := by cases r <;> simp
        simp only [List.length_append, List.length_cons]
        omega

theorem runExchanges_length_le (sc : RunScenario) (results : List AgentResultM)
    (rn : Nat) (dt : String) (pairs : List (String × String))
    (exs : List DebateExchangeM)
    (h : runExchanges sc results rn dt pairs = .ok exs) :
    exs.length ≤ pairs.length := by
  induction pairs generalizing exs with
  | nil =>
    simp only [runExchanges] at h
    injection h with h
    subst h
    simp
  | cons p ps ih =>
    simp only [runExchanges] at h
    cases ha : execDebateExchange sc results rn dt p.1 p.2 with
    | error e => simp [ha] at h
    | ok ex =>
      cases hrest : runExchanges sc results rn dt ps with
      | error e => simp [ha, hrest] at h
      | ok exs' =>
        simp only [ha, hrest] at h
        injection h with h
        subst h
        have h1 := ih exs' hrest
        have h2 : ex.toList.length ≤ 1 := by cases ex <;> simp
        simp only [List.length_append, List.length_cons]
        omega

theorem runWorkersAux_content (sc : RunScenario) (ns : List String)
    (rs : List AgentResultM) (h : runWorkersAux sc ns = .ok rs)
    (hall : ∀ n ∈ ns, ∃ r, agentNodeRun sc n = .ok (some r) ∧
      r.content ≠ "" ∧ r.agentName = n) :
    (∀ r ∈ rs, r.content ≠ "") ∧ (∀ n ∈ ns, ∃ r ∈ rs, r.agentName = n) ∧
      rs.length = ns.length := by
  induction ns generalizing rs with
  | nil =>
    simp only [runWorkersAux] at h
    injection h with h
    subst h
    simp
  | cons n ns ih =>
    obtain ⟨r0, ha, hc0, hn0⟩ := hall n (by simp)
    simp only [runWorkersAux, ha] at h
    cases hrest : runWorkersAux sc ns with
    | error e => simp [hrest] at h
    | ok rest =>
      simp only [hrest, Option.toList_some, List.singleton_append] at h
      injection h with h
      subst h
      obtain ⟨ihc, ihm, ihl⟩ := ih rest hrest fun m hm => hall m (by simp [hm])
      refine ⟨?_, ?_, by simp [ihl]⟩
      · intro r hr
        rcases List.mem_cons.mp hr with rfl | hr
        · exact hc0
        · exact ihc r hr
      · intro m hm
        rcases List.mem_cons.mp hm with rfl | hm
        · exact ⟨r0, by simp, hn0⟩
        · obtain ⟨r, hrmem, hrn⟩ := ihm m hm
          exact ⟨r, by simp [hrmem], hrn⟩

theorem runWorkersAux_length_eq (sc : RunScenario) (ns : List String)
    (rs : List AgentResultM) (h : runWorkersAux sc ns = .ok rs)
    (hall : ∀ n ∈ ns, ∃ r, agentNodeRun sc n = .ok (some r)) :
    rs.length = ns.length := by
  induction ns generalizing rs with
  | nil =>
    simp only [runWorkersAux] at h
    injection h with h
    subst h
    rfl
  | cons n ns ih =>
    obtain ⟨r0, ha⟩ := hall n (by simp)
    simp only [runWorkersAux, ha] at h
    cases hrest : runWorkersAux sc ns with
    | error e => simp [hrest] at h
    | ok rest =>
      simp only [hrest, Option.toList_some, List.singleton_append] at h
      injection h with h
      subst h
      simp [ih rest hrest fun m hm => hall m (by simp [hm])]

theorem runExchanges_length_eq (sc : RunScenario) (results : List AgentResultM)
    (rn : Nat) (dt : String) (pairs : List (String × String))
    (exs : List DebateExchangeM)
    (h : runExchanges sc results rn dt pairs = .ok exs)
    (hall : ∀ p ∈ pairs, ∃ ex,
      execDebateExchange sc results rn dt p.1 p.2 = .ok (some ex)) :
    exs.length = pairs.length := by
  induction pairs generalizing exs with
  | nil =>
    simp only [runExchanges] at h
    injection h with h
    subst h
    rfl
  | cons p ps ih =>
    obtain ⟨ex0, ha⟩ := hall p (by simp)
    simp only [runExchanges, ha] at h
    cases hrest : runExchanges sc results rn dt ps with
    | error e => simp [hrest] at h
    | ok exs' =>
      simp only [hrest, Option.toList_some, List.singleton_append] at h
      injection h with h
      subst h
      simp [ih exs' hrest fun q hq => hall q (by simp [hq])]

theorem simulatedContent_ne (sc : RunScenario) (n : String) :
    simulatedContent sc n ≠ "" := by
  intro h
  have hlen := congrArg String.length h
  simp only [simulatedContent, String.length_append] at hlen
  have h1 : ("[" : String).length = 1 := rfl
  have h0 : ("" : String).length = 0 := rfl
  rw [h1, h0] at hlen
  omega

theorem agentNodeRun_good (sc : RunScenario) (n : String)
    (hW : sc.hasFactory = true → ∃ c, sc.workerRun n = .ok c ∧ c ≠ "") :
    ∃ r, agentNodeRun sc n = .ok (some r) ∧ r.content ≠ "" ∧
      r.agentName = n := by
  by_cases hf : sc.hasFactory = true
  · obtain ⟨c, hc, hcne⟩ := hW hf
    exact ⟨⟨n, c, none⟩, by simp [agentNodeRun, hf, hc], hcne, rfl⟩
  · have hf' : sc.hasFactory = false := by simpa using hf
    exact ⟨⟨n, simulatedContent sc n, none⟩, by simp [agentNodeRun, hf'],
      simulatedContent_ne sc n, rfl⟩

theorem findResult_good (rs : List AgentResultM) (n : String)
    (hex : ∃ r ∈ rs, r.agentName = n) (hc : ∀ r ∈ rs, r.content ≠ "") :
    ∃ r, findResult rs n = some r ∧ r.content ≠ "" := by
  obtain ⟨r0, hr0, hn⟩ := hex
  have hsome : (rs.find? fun r => r.agentName == n).isSome := by
    rw [List.find?_isSome]
    exact ⟨r0, hr0, by simp [hn]⟩
  obtain ⟨r, hr⟩ := Option.isSome_iff_exists.mp hsome
  exact ⟨r, hr, hc r (List.mem_of_find?_eq_some hr)⟩

theorem execDebateExchange_good (sc : RunScenario)
    (results : List AgentResultM) (rn : Nat) (dt : String) (ch rsp : String)
    (hE : ∃ t, sc.exchangeRun rn ch rsp = .ok t)
    (hfind : sc.hasFactory = true →
      ∃ r, findResult results rsp = some r ∧ r.content ≠ "") :
    ∃ ex, execDebateExchange sc results rn dt ch rsp = .ok (some ex) := by
  by_cases hf : sc.hasFactory = true
  · obtain ⟨r, hr, hc⟩ := hfind hf
    obtain ⟨t, ht⟩ := hE
    exact ⟨⟨rn, dt, ch, rsp, t.1, t.2.1,
        if sc.enableFollowup then some t.2.2 else none, revisedFlag t.2.1⟩,
      by simp [execDebateExchange, hf, hr, hc, ht]⟩
  · have hf' : sc.hasFactory = false := by simpa using hf
    exact ⟨⟨rn, dt, ch, rsp, "[" ++ ch ++ "] 质疑占位内容",
        "[" ++ rsp ++ "] 回应占位内容",
        if sc.enableFollowup then some ("[" ++ ch ++ "] 确认占位") else none,
        false⟩,
      by simp [execDebateExchange, hf']⟩

/-- C1 (amended): every completed session has at most 4 agent results
and at most 4·rounds debate exchanges (rounds normalized to [0, 2]),
with exactly 0 exchanges when rounds = 0; the counts are exactly 4 and
4·rounds when every worker eventually succeeds with non-empty content
and every debate exchange eventually succeeds — otherwise exchanges
whose responder is missing or empty-handed are dropped (see the
counterexample). -/
theorem C1_session_counts (sc : RunScenario) (st : FinalStateM)
    (h : runSession sc = some st) :
    st.agentResults.length ≤ 4 ∧
      st.debateExchanges.length ≤
        4 * (normalizeDebateRounds sc.debateRounds).toNat ∧
      (normalizeDebateRounds sc.debateRounds = 0 →
        st.debateExchanges.length = 0) ∧
      ((∀ n ∈ workerAgents, sc.hasFactory = true →
          ∃ c, sc.workerRun n = .ok c ∧ c ≠ "") →
        (∀ rn ch rsp, ∃ t, sc.exchangeRun rn ch rsp = .ok t) →
        st.agentResults.length = 4 ∧
          st.debateExchanges.length =
            4 * (normalizeDebateRounds sc.debateRounds).toNat) := by
  simp only [runSession] at h
  cases hw : runWorkersAux sc workerAgents with
  | error e => simp [hw] at h
  | ok results =>
    simp only [hw] at h
    cases hp : (if 1 ≤ normalizeDebateRounds sc.debateRounds then
        runExchanges sc results 1 "peer_review" peerExchangeSeq
      else .ok []) with
    | error e => simp [hp] at h
    | ok peerExs =>
      simp only [hp] at h
      cases hr2 : (if 2 ≤ normalizeDebateRounds sc.debateRounds then
          runExchanges sc results 2 "red_team" redteamExchangeSeq
        else .ok []) with
      | error e => simp [hr2] at h
      | ok redExs =>
        simp only [hr2] at h
        have hst : st = ⟨results, peerExs ++ redExs⟩ := by
          by_cases hb : (sc.hasFactory &&
              (results.any fun r => !(r.content == ""))) = true
          · rw [if_pos hb] at h
            cases hs : sc.synthRun with
            | ok rep =>
              simp only [hs] at h
              injection h with h
              exact h.symm
            | error e =>
              simp only [hs] at h
              by_cases hfail : resolveDegradeMode (.pStr sc.degradeMode) = "fail"
              · rw [if_pos hfail] at h
                cases h
              · rw [if_neg hfail] at h
                injection h with h
                exact h.symm
          · rw [if_neg hb] at h
            injection h with h
            exact h.symm
        subst hst
        have hres_le : results.length ≤ 4 := by
          have hle := runWorkersAux_length_le sc workerAgents results hw
          simpa [workerAgents] using hle
        have hrange := normalizeDebateRounds_range sc.debateRounds
        have hplen : peerExchangeSeq.length = 4 := rfl
        have hrlen : redteamExchangeSeq.length = 4 := rfl
        have hpeer : (1 ≤ normalizeDebateRounds sc.debateRounds →
            peerExs.length ≤ 4) ∧
            (¬ 1 ≤ normalizeDebateRounds sc.debateRounds →
              peerExs.length = 0) := by
          by_cases h1 : 1 ≤ normalizeDebateRounds sc.debateRounds
          · rw [if_pos h1] at hp
            have hle := runExchanges_length_le sc results 1 "peer_review"
              peerExchangeSeq peerExs hp
            exact ⟨fun _ => by omega, fun hc => absurd h1 hc⟩
          · rw [if_neg h1] at hp
            injection hp with hp
            exact ⟨fun hc => absurd hc h1, fun _ => by simp [← hp]⟩
        have hred : (2 ≤ normalizeDebateRounds sc.debateRounds →
            redExs.length ≤ 4) ∧
            (¬ 2 ≤ normalizeDebateRounds sc.debateRounds →
              redExs.length = 0) := by
          by_cases h2 : 2 ≤ normalizeDebateRounds sc.debateRounds
          · rw [if_pos h2] at hr2
            have hle := runExchanges_length_le sc results 2 "red_team"
              redteamExchangeSeq redExs hr2
            exact ⟨fun _ => by omega, fun hc => absurd h2 hc⟩
          · rw [if_neg h2] at hr2
            injection hr2 with hr2
            exact ⟨fun hc => absurd hc h2, fun _ => by simp [← hr2]⟩
        refine ⟨hres_le, ?_, ?_, ?_⟩
        · simp only [List.length_append]
          by_cases h1 : 1 ≤ normalizeDebateRounds sc.debateRounds <;>
            by_cases h2 : 2 ≤ normalizeDebateRounds sc.debateRounds
          · have := hpeer.1 h1
            have := hred.1 h2
            omega
          · have := hpeer.1 h1
            have := hred.2 h2
            omega
          · omega
          · have := hpeer.2 h1
            have := hred.2 h2
            omega
        · intro h0
          have hp0 := hpeer.2 (by omega)
          have hr0 := hred.2 (by omega)
          simp [hp0, hr0]
        · intro hW hE
          have hallW : ∀ n ∈ workerAgents,
              ∃ r, agentNodeRun sc n = .ok (some r) ∧ r.content ≠ "" ∧
                r.agentName = n :=
            fun n hn => agentNodeRun_good sc n (hW n hn)
          obtain ⟨hcont, hmemres, hlen⟩ :=
            runWorkersAux_content sc workerAgents results hw hallW
          have hfindgood : ∀ rsp ∈ workerAgents,
              ∃ r, findResult results rsp = some r ∧ r.content ≠ "" :=
            fun rsp hrsp => findResult_good results rsp (hmemres rsp hrsp) hcont
          have hexPeer : ∀ p ∈ peerExchangeSeq,
              ∃ ex, execDebateExchange sc results 1 "peer_review" p.1 p.2 =
                .ok (some ex) := by
            intro p hpmem
            refine execDebateExchange_good sc results 1 "peer_review" p.1 p.2
              (hE 1 p.1 p.2) fun _ => hfindgood p.2 ?_
            fin_cases hpmem <;> decide
          have hexRed : ∀ p ∈ redteamExchangeSeq,
              ∃ ex, execDebateExchange sc results 2 "red_team" p.1 p.2 =
                .ok (some ex) := by
            intro p hpmem
            refine execDebateExchange_good sc results 2 "red_team" p.1 p.2
              (hE 2 p.1 p.2) fun _ => hfindgood p.2 ?_
            fin_cases hpmem <;> decide
          have hpeereq : 1 ≤ normalizeDebateRounds sc.debateRounds →
              peerExs.length = 4 := by
            intro h1
            rw [if_pos h1] at hp
            have := runExchanges_length_eq sc results 1 "peer_review"
              peerExchangeSeq peerExs hp hexPeer
            omega
          have hredeq : 2 ≤ normalizeDebateRounds sc.debateRounds →
              redExs.length = 4 := by
            intro h2
            rw [if_pos h2] at hr2
            have := runExchanges_length_eq sc results 2 "red_team"
              redteamExchangeSeq redExs hr2 hexRed
            omega
          refine ⟨by simpa [workerAgents] using hlen, ?_⟩
          simp only [List.length_append]
          by_cases h1 : 1 ≤ normalizeDebateRounds sc.debateRounds <;>
            by_cases h2 : 2 ≤ normalizeDebateRounds sc.debateRounds
          · have := hpeereq h1
            have := hredeq h2
            omega
          · have := hpeereq h1
            have := hred.2 h2
            omega
          · omega
          · have := hpeer.2 h1
            have := hred.2 h2
            omega

/-- A fully-successful zero-round scenario used by the C1 witness. -/
def witScenario : RunScenario :=
  { debateRounds := 0
    degradeMode := "partial"
    hasFactory := true
    enableFollowup := true
    targetMarket := "Japan"
    supplyChain := "Toys"
    workerRun := fun n => .ok ("c-" ++ n)
    exchangeRun := fun _ _ _ => .ok ("c", "r", "f")
    synthRun := .ok "report" }

/-- The final state `witScenario` completes with. -/
def witState : FinalStateM :=
  ⟨[⟨"trend_scout", "c-trend_scout", none⟩,
    ⟨"competitor_analyst", "c-competitor_analyst", none⟩,
    ⟨"regulation_checker", "c-regulation_checker", none⟩,
    ⟨"social_sentinel", "c-social_sentinel", none⟩], []⟩

/-- C1 witness: the session-count bounds instantiated at a concrete
completed session. -/
theorem C1_session_counts_witness :
    witState.agentResults.length ≤ 4 ∧
      witState.debateExchanges.length ≤
        4 * (normalizeDebateRounds witScenario.debateRounds).toNat ∧
      (normalizeDebateRounds witScenario.debateRounds = 0 →
        witState.debateExchanges.length = 0) ∧
      ((∀ n ∈ workerAgents, witScenario.hasFactory = true →
          ∃ c, witScenario.workerRun n = .ok c ∧ c ≠ "") →
        (∀ rn ch rsp, ∃ t, witScenario.exchangeRun rn ch rsp = .ok t) →
        witState.agentResults.length = 4 ∧
          witState.debateExchanges.length =
            4 * (normalizeDebateRounds witScenario.debateRounds).toNat) :=
  C1_session_counts witScenario witState (by decide)

end WeaveAI
